import Mathlib

/-!
A verification development for the Gumbo → libxml2 conversion engine
(`src/as-libxml.c`, `src/data-types.h`).

C strings are modelled as `List Nat` of their bytes (the content before the
terminating NUL; a NUL byte never occurs inside the list).  Machine `char`
values are `Nat`s below 256; the functions below are faithful byte-for-byte
translations of the corresponding C routines.
-/

/-- Turn a Lean string literal into the byte list of its characters.  Only
used for ASCII literals, where one character is one byte, exactly as in the
C sources. -/
def bytes (s : String) : List Nat := s.data.map Char.toNat

/-- `VALID_FIRST_CHAR` from data-types.h: ASCII letter or underscore. -/
def VALID_FIRST_CHAR (c : Nat) : Bool :=
  (97 ≤ c && c ≤ 122) || (65 ≤ c && c ≤ 90) || c == 95

/-- `VALID_CHAR` from data-types.h: ASCII letter, digit, underscore,
hyphen, or period. -/
def VALID_CHAR (c : Nat) : Bool :=
  (97 ≤ c && c ≤ 122) || (48 ≤ c && c ≤ 57) || c == 45 ||
  (65 ≤ c && c ≤ 90) || c == 95 || c == 46

/-- The loop of `sanitize_name` (data-types.h, lines 123-126): every byte
after the first is replaced with `'_'` (95) unless `VALID_CHAR` accepts
it.  The C loop walks the buffer in place; the net effect on the byte
content is this map. -/
def sanitizeRest (l : List Nat) : List Nat :=
  l.map (fun c => if VALID_CHAR c then c else 95)

/-- `sanitize_name` from data-types.h (lines 119-128), returning the new
byte content together with the value the C function returns (the index of
the terminating NUL, i.e. the length).  The empty string is returned
untouched with length 0; otherwise the first byte must pass
`VALID_FIRST_CHAR` (else it becomes `'_'`) and the rest pass `VALID_CHAR`. -/
def sanitize_name : List Nat → List Nat × Nat
  | [] => ([], 0)
  | c :: rest =>
      ((if VALID_FIRST_CHAR c then c else 95) :: sanitizeRest rest,
       1 + rest.length)

/-!
## The source (Gumbo) data model

`GumboNode` mirrors the node variants the converter distinguishes
(as-libxml.c, `convert_node`): Element/Template, Text, Whitespace,
Comment, CDATA, and the Document variant that falls into `convert_node`'s
`default:` branch.  An element carries its tag identity (a `Nat`, with
`GUMBO_TAG_UNKNOWN` and above meaning "unknown tag"), its namespace tag
(0 = HTML, 1 = SVG, 2 = MathML), the raw `original_tag` text, its
attribute list, its source line, and its children in document order.

A `GAttr` carries the attribute's Gumbo namespace classification, its
name and value bytes, and `reMark`, which models whether the attribute's
`original_name.data` slot currently holds the `REPROCESS` sentinel
pointer (as-libxml.c, lines 95 and 116/190).
-/

/-- Gumbo attribute namespace classification (`GumboAttributeNamespaceEnum`). -/
inductive ANS where
  | anone | axlink | axml | axmlns
deriving DecidableEq, Repr

/-- A Gumbo attribute, as read and written by `create_attributes`. -/
structure GAttr where
  ans : ANS
  aname : List Nat
  aval : List Nat
  reMark : Bool
deriving DecidableEq, Repr

/-- A Gumbo node.  Children lists are in document order. -/
inductive GumboNode where
  | element (templ : Bool) (tag : Nat) (tagNs : Nat) (origTag : List Nat)
      (attrs : List GAttr) (line : Nat) (children : List GumboNode)
  | textNode (t : List Nat)
  | whitespaceNode (t : List Nat)
  | commentNode (t : List Nat)
  | cdataNode (t : List Nat)
  | documentNode
deriving Repr

mutual

/-- Structural equality on Gumbo nodes.  `add_root_comments` compares node
pointers (`root_node == root`); in this value model the root element is
the unique element among the document's top-level children, so structural
equality coincides with pointer identity there. -/
def gumboEq : GumboNode → GumboNode → Bool
  | .element t1 tg1 ns1 o1 a1 l1 c1, .element t2 tg2 ns2 o2 a2 l2 c2 =>
      t1 == t2 && tg1 == tg2 && ns1 == ns2 && o1 == o2 && a1 == a2 &&
      l1 == l2 && gumboListEq c1 c2
  | .textNode a, .textNode b => a == b
  | .whitespaceNode a, .whitespaceNode b => a == b
  | .commentNode a, .commentNode b => a == b
  | .cdataNode a, .cdataNode b => a == b
  | .documentNode, .documentNode => true
  | _, _ => false

/-- Structural equality on lists of Gumbo nodes. -/
def gumboListEq : List GumboNode → List GumboNode → Bool
  | [], [] => true
  | x :: xs, y :: ys => gumboEq x y && gumboListEq xs ys
  | _, _ => false

end

mutual

/-- Number of nodes in a Gumbo subtree (elements and leaves alike). -/
def gsize : GumboNode → Nat
  | .element _ _ _ _ _ _ cs => 1 + gsizeList cs
  | _ => 1

/-- Total number of nodes in a list of Gumbo subtrees. -/
def gsizeList : List GumboNode → Nat
  | [] => 0
  | c :: cs => gsize c + gsizeList cs

end

mutual

/-- Number of Element/Template nodes in a Gumbo subtree. -/
def gElemCount : GumboNode → Nat
  | .element _ _ _ _ _ _ cs => 1 + gElemCountList cs
  | _ => 0

/-- Number of Element/Template nodes in a list of Gumbo subtrees. -/
def gElemCountList : List GumboNode → Nat
  | [] => 0
  | c :: cs => gElemCount c + gElemCountList cs

end

/-- `GUMBO_TAG_UNKNOWN`: tag identities at or above this value carry no
standard name and are rendered from `original_tag` text. -/
def GUMBO_TAG_UNKNOWN : Nat := 150

/-- `MAX_TAG_NAME_SZ` from data-types.h. -/
def MAX_TAG_NAME_SZ : Nat := 100

/-- `kLegalXmlns` from as-libxml.c, indexed by the Gumbo namespace enum. -/
def kLegalXmlns (tagNs : Nat) : List Nat :=
  match tagNs with
  | 0 => bytes "http://www.w3.org/1999/xhtml"
  | 1 => bytes "http://www.w3.org/2000/svg"
  | _ => bytes "http://www.w3.org/1998/Math/MathML"

/-!
## The target (libxml2) data model

libxml2 is an external collaborator; the spec scopes it out and the code
relies only on the documented behaviour of a dozen tree primitives.  We
model the mutable libxml node graph as a store: nodes live in
`XmlDoc.nodes` and are addressed by their index, namespace declaration
records live in `XmlDoc.nss` and are addressed by index (pointer equality
of `xmlNsPtr` values becomes index equality).  Dict-interned strings are
modelled by their byte content: two names interned in the same dict are
pointer-equal exactly when their bytes are equal, so interned-pointer
comparison (as in `attr_name == pd->lang_attribute`) becomes list
equality.  libxml's coalescing of adjacent text nodes in `xmlAddChild` is
not modelled (no claim depends on it).
-/

/-- The libxml node kinds the converter creates. -/
inductive XKind where
  | xelem | xtext | xcomment | xcdata
deriving DecidableEq, Repr

/-- A namespace declaration record (`xmlNs`): its prefix (none = default
namespace) and its URI. -/
structure XmlNs where
  nsPfx : Option (List Nat)
  href : List Nat
deriving DecidableEq, Repr

/-- An attribute (`xmlAttr`) on a node: optional namespace binding
(an index into the `nss` store), name, and value. -/
structure XmlProp where
  pns : Option Nat
  pname : List Nat
  pval : List Nat
deriving DecidableEq, Repr

/-- A libxml node: kind, name, parent and children links (indices into the
node store), the namespace declarations made on this node (`nsDef`), the
namespace this node is assigned to (`ns`), its attributes, and its line. -/
structure XmlNode where
  kind : XKind
  xname : List Nat
  parent : Option Nat
  children : List Nat
  nsDef : List Nat
  ns : Option Nat
  props : List XmlProp
  line : Nat
deriving DecidableEq, Repr

/-- A fresh node of the given kind and name. -/
def mkXmlNode (k : XKind) (name : List Nat) : XmlNode :=
  ⟨k, name, none, [], [], none, [], 0⟩

/-- The libxml document: node store, namespace-record store, the implicit
`xml` namespace (`doc->oldNs`), the root element (set by
`xmlDocSetRootElement`), the document-level child list, and the internal
subset written by `xmlCreateIntSubset`. -/
structure XmlDoc where
  nodes : List XmlNode
  nss : List XmlNs
  oldNs : Option Nat
  rootElement : Option Nat
  docChildren : List Nat
  intSubset : Option (List Nat × List Nat × List Nat)
deriving DecidableEq, Repr

def emptyXmlDoc : XmlDoc := ⟨[], [], none, none, [], none⟩

/-- Replace the entry at index `i` (out-of-range indices leave the list
unchanged). -/
def listModify (l : List α) (i : Nat) (f : α → α) : List α :=
  match l, i with
  | [], _ => []
  | x :: xs, 0 => f x :: xs
  | x :: xs, Nat.succ j => x :: listModify xs j f

/-- Error messages the converter can surface (`ERRMSG` strings in
as-libxml.c; the file/line noise of the macro is irrelevant and elided). -/
inductive ErrMsg where
  | unknownNodeType      -- "unknown gumbo node type" (line 363)
  | commentOom           -- "Out of memory allocating comment" (line 402)
  | addSiblingFailed     -- "Failed to add sibling to root node" (line 407)
deriving DecidableEq, Repr

/-- `ParseData` from as-libxml.c (lines 32-40): the per-conversion context.
`standard_tags` models the interned-name cache as an association list
(absent key = NULL cache slot). -/
structure ParseData where
  xlink : Option Nat
  xml : Option Nat
  root : Option Nat
  maybe_xhtml : Bool
  sanitize_names : Bool
  errmsg : Option ErrMsg
  standard_tags : List (Nat × List Nat)
  lang_attribute : List Nat
deriving DecidableEq, Repr

def initParseData : ParseData := ⟨none, none, none, false, false, none, [], []⟩

/-- `Options` from data-types.h (lines 26-33).  `use_xhtml_rules` is the
`gumbo_opts.use_xhtml_rules` strictness flag the converter consults. -/
structure Options where
  stack_size : Nat
  keep_doctype : Bool
  namespace_elements : Bool
  sanitize_names : Bool
  line_number_attr : Option (List Nat)
  use_xhtml_rules : Bool
deriving DecidableEq, Repr

/-- The conversion state: the document store, the `ParseData` context, the
allocation oracle (each fallible external allocation consumes the head of
`oracle`; an empty oracle means every allocation succeeds), and a count of
how many times `pd->errmsg` has been assigned (instrumentation for the
"message set at most once" property; the code assigns unconditionally). -/
structure ConvSt where
  doc : XmlDoc
  pd : ParseData
  oracle : List Bool
  errWrites : Nat
deriving DecidableEq, Repr

/-- Consume one allocation decision from the oracle. -/
def allocOk (s : ConvSt) : Bool × ConvSt :=
  match s.oracle with
  | [] => (true, s)
  | b :: r => (b, { s with oracle := r })

/-- Assign `pd->errmsg` (unconditionally, as the C code does) and count
the write. -/
def setErrmsg (m : ErrMsg) (s : ConvSt) : ConvSt :=
  { s with pd := { s.pd with errmsg := some m }, errWrites := s.errWrites + 1 }

/-- Read a node from the store. -/
def getNode (s : ConvSt) (i : Nat) : Option XmlNode := s.doc.nodes.get? i

/-- Update a node in the store. -/
def modifyNode (s : ConvSt) (i : Nat) (f : XmlNode → XmlNode) : ConvSt :=
  { s with doc := { s.doc with nodes := listModify s.doc.nodes i f } }

/-! ## Byte-string constants and helpers -/

def xmlBytes : List Nat := bytes "xml"

def xlinkBytes : List Nat := bytes "xlink"

def xmlnsBytes : List Nat := bytes "xmlns"

def langBytes : List Nat := bytes "lang"

def xmlURI : List Nat := bytes "http://www.w3.org/XML/1998/namespace"

def xlinkURI : List Nat := bytes "http://www.w3.org/1999/xlink"

/-- `strchr(name, ':')`: index of the first colon byte (58), if any. -/
def strchrColon (l : List Nat) : Option Nat := l.findIdx? (fun c => c == 58)

/-- `strncmp(name, p, strlen(p)) == 0`: does `l` start with `p`? -/
def startsWithBytes (p l : List Nat) : Bool := List.isPrefixOf p l

/-- `snprintf(buf, ..., "%u", n)`: the decimal digits of `n`. -/
def decimalBytes (n : Nat) : List Nat := (Nat.toDigits 10 n).map Char.toNat

/-!
## libxml2 primitives

Each primitive below models the libxml2 call of the same name on the
store, consuming one oracle decision wherever the C function can fail by
allocation.  They follow libxml2's documented semantics, which is the
interface the repository relies on (the spec lists the XML tree library
as an external collaborator).
-/

/-- `xmlDictLookup(doc->dict, name, len)`: intern the first `len` bytes of
`name`.  Interned names compare by content, so the model returns the byte
content itself; NULL on allocation failure. -/
def xmlDictLookup (name : List Nat) (len : Nat) (s : ConvSt) :
    Option (List Nat) × ConvSt :=
  let (ok, s1) := allocOk s
  if ok then (some (name.take len), s1) else (none, s1)

/-- Scan a node's `nsDef` list for a declaration with the given prefix. -/
def findNsDefByPfx (s : ConvSt) (ids : List Nat) (pfx : List Nat) : Option Nat :=
  match ids with
  | [] => none
  | i :: rest =>
      match s.doc.nss.get? i with
      | some ns => if ns.nsPfx == some pfx then some i else findNsDefByPfx s rest pfx
      | none => findNsDefByPfx s rest pfx

/-- Does a node's `nsDef` list already declare this (possibly default)
prefix?  (`xmlNewNs` refuses duplicates on the same node.) -/
def nsDefHasPfx (s : ConvSt) (ids : List Nat) (pfx : Option (List Nat)) : Bool :=
  ids.any (fun i =>
    match s.doc.nss.get? i with
    | some ns => ns.nsPfx == pfx
    | none => false)

/-- The ancestor walk of `xmlSearchNs`: try each node's own declarations,
then its parent's.  `fuel` bounds the walk; every document the converter
builds has an acyclic parent chain, so `nodes.length + 1` steps always
suffice. -/
def searchNsChain (s : ConvSt) : Nat → Option Nat → List Nat → Option Nat
  | 0, _, _ => none
  | _, none, _ => none
  | Nat.succ f, some i, pfx =>
      match getNode s i with
      | none => none
      | some n =>
          match findNsDefByPfx s n.nsDef pfx with
          | some k => some k
          | none => searchNsChain s f n.parent pfx

/-- `xmlSearchNs(doc, node, prefix)`: NULL when `node` is NULL; the
prefix `"xml"` is special-cased to the document's implicit xml namespace
(`doc->oldNs`), created on first demand (that creation can fail by
allocation); any other prefix is resolved by the ancestor-scope walk. -/
def xmlSearchNs (node : Option Nat) (pfx : List Nat) (s : ConvSt) :
    Option Nat × ConvSt :=
  match node with
  | none => (none, s)
  | some i =>
      if pfx = xmlBytes then
        match s.doc.oldNs with
        | some k => (some k, s)
        | none =>
            let (ok, s1) := allocOk s
            if ok then
              let k := s1.doc.nss.length
              (some k,
               { s1 with doc := { s1.doc with
                   nss := s1.doc.nss ++ [⟨some xmlBytes, xmlURI⟩],
                   oldNs := some k } })
            else (none, s1)
      else (searchNsChain s (s.doc.nodes.length + 1) (some i) pfx, s)

/-- `xmlNewNs(node, href, prefix)`: NULL if the node already declares the
prefix (the code at as-libxml.c line 168 relies on that refusal);
otherwise allocate a declaration record and chain it on the node. -/
def xmlNewNs (node : Nat) (href : List Nat) (pfx : Option (List Nat))
    (s : ConvSt) : Option Nat × ConvSt :=
  match getNode s node with
  | none => (none, s)
  | some n =>
      if nsDefHasPfx s n.nsDef pfx then (none, s)
      else
        let (ok, s1) := allocOk s
        if ok then
          let k := s1.doc.nss.length
          let s2 := { s1 with doc := { s1.doc with nss := s1.doc.nss ++ [⟨pfx, href⟩] } }
          (some k, modifyNode s2 node (fun m => { m with nsDef := m.nsDef ++ [k] }))
        else (none, s1)

/-- `xmlSetNs(node, ns)`: assign the node's namespace slot. -/
def xmlSetNs (node : Nat) (ns : Option Nat) (s : ConvSt) : ConvSt :=
  modifyNode s node (fun m => { m with ns := ns })

/-- `xmlNewDocNodeEatName(doc, NULL, name, NULL)`: allocate a fresh
element node; NULL on allocation failure. -/
def xmlNewDocNodeEatName (name : List Nat) (s : ConvSt) : Option Nat × ConvSt :=
  let (ok, s1) := allocOk s
  if ok then
    (some s1.doc.nodes.length,
     { s1 with doc := { s1.doc with nodes := s1.doc.nodes ++ [mkXmlNode .xelem name] } })
  else (none, s1)

/-- Allocate a fresh non-element node (`xmlNewText` / `xmlNewComment` /
`xmlNewCDataBlock`). -/
def xmlNewLeaf (k : XKind) (content : List Nat) (s : ConvSt) :
    Option Nat × ConvSt :=
  let (ok, s1) := allocOk s
  if ok then
    (some s1.doc.nodes.length,
     { s1 with doc := { s1.doc with nodes := s1.doc.nodes ++ [mkXmlNode k content] } })
  else (none, s1)

/-- `xmlAddChild(parent, cur)`: link `child` as the last child of
`parent`; NULL on invalid arguments.  (libxml's coalescing of adjacent
text children is not modelled; see the section comment.) -/
def xmlAddChild (parent child : Nat) (s : ConvSt) : Option Nat × ConvSt :=
  if parent < s.doc.nodes.length ∧ child < s.doc.nodes.length then
    let s1 := modifyNode s child (fun m => { m with parent := some parent })
    let s2 := modifyNode s1 parent (fun m => { m with children := m.children ++ [child] })
    (some child, s2)
  else (none, s)

/-- `xmlNewNsPropEatName(node, ns, name, value)`: append a new attribute
to the node; NULL on allocation failure. -/
def xmlNewNsPropEatName (node : Nat) (ns : Option Nat) (name value : List Nat)
    (s : ConvSt) : Option Unit × ConvSt :=
  match getNode s node with
  | none => (none, s)
  | some _ =>
      let (ok, s1) := allocOk s
      if ok then
        (some (), modifyNode s1 node (fun m => { m with props := m.props ++ [⟨ns, name, value⟩] }))
      else (none, s1)

/-- `xmlSetNsProp(node, ns, name, value)`: overwrite the value of the
first attribute with this namespace and name, or create the attribute if
none exists (that creation can fail by allocation). -/
def xmlSetNsProp (node : Nat) (ns : Option Nat) (name value : List Nat)
    (s : ConvSt) : Option Unit × ConvSt :=
  match getNode s node with
  | none => (none, s)
  | some n =>
      match n.props.findIdx? (fun p => p.pns == ns && p.pname == name) with
      | some j =>
          (some (), modifyNode s node (fun m =>
            { m with props := listModify m.props j (fun p => { p with pval := value }) }))
      | none =>
          let (ok, s1) := allocOk s
          if ok then
            (some (), modifyNode s1 node (fun m => { m with props := m.props ++ [⟨ns, name, value⟩] }))
          else (none, s1)

/-- `xmlGetNsProp(node, name, NULL)`: the value of the node's
no-namespace attribute of that name, NULL when absent (or when `node` is
NULL, or when duplicating the value fails by allocation). -/
def xmlGetNsProp (node : Option Nat) (name : List Nat) (s : ConvSt) :
    Option (List Nat) × ConvSt :=
  match node with
  | none => (none, s)
  | some i =>
      match getNode s i with
      | none => (none, s)
      | some n =>
          match n.props.find? (fun p => p.pns == none && p.pname == name) with
          | some p =>
              let (ok, s1) := allocOk s
              if ok then (some p.pval, s1) else (none, s1)
          | none => (none, s)

/-- `xmlDocSetRootElement(doc, root)`: a NULL root is a no-op; otherwise
the root joins the document's child list and is recorded as root. -/
def xmlDocSetRootElement (root : Option Nat) (s : ConvSt) : ConvSt :=
  match root with
  | none => s
  | some r =>
      { s with doc := { s.doc with
          docChildren := s.doc.docChildren ++ [r], rootElement := some r } }

/-- Insert an element before position `i` of a list. -/
def listInsertAt (l : List α) (i : Nat) (a : α) : List α :=
  match l, i with
  | l, 0 => a :: l
  | [], _ => [a]
  | x :: xs, Nat.succ j => x :: listInsertAt xs j a

/-- `xmlAddPrevSibling(sib, cur)`: insert `c` immediately before `sib`
among the document's children; NULL when `sib` is NULL or unlinked. -/
def xmlAddPrevSibling (sib : Option Nat) (c : Nat) (s : ConvSt) :
    Option Unit × ConvSt :=
  match sib with
  | none => (none, s)
  | some r =>
      match s.doc.docChildren.findIdx? (fun x => x == r) with
      | none => (none, s)
      | some j =>
          (some (), { s with doc := { s.doc with
              docChildren := listInsertAt s.doc.docChildren j c } })

/-- `xmlAddSibling(sib, cur)`: append `c` after the last sibling of
`sib`; NULL when `sib` is NULL or unlinked. -/
def xmlAddSibling (sib : Option Nat) (c : Nat) (s : ConvSt) :
    Option Unit × ConvSt :=
  match sib with
  | none => (none, s)
  | some r =>
      if s.doc.docChildren.contains r then
        (some (), { s with doc := { s.doc with
            docChildren := s.doc.docChildren ++ [c] } })
      else (none, s)

/-- `xmlCreateIntSubset(doc, name, public_id, system_id)`: record the
internal subset; NULL on allocation failure. -/
def xmlCreateIntSubset (name pub sys : List Nat) (s : ConvSt) :
    Option Unit × ConvSt :=
  let (ok, s1) := allocOk s
  if ok then
    (some (), { s1 with doc := { s1.doc with intSubset := some (name, pub, sys) } })
  else (none, s1)

/-!
## The conversion engine (as-libxml.c)
-/

/-- `ensure_xml_ns` (as-libxml.c, lines 63-70): locate the `xml` binding
lazily, searching from the recorded root (or the given node before a root
exists); the result — even NULL — is cached in `pd->xml`. -/
def ensure_xml_ns (node : Option Nat) (s : ConvSt) : Option Nat × ConvSt :=
  match s.pd.xml with
  | some k => (some k, s)
  | none =>
      let root := match s.pd.root with | some r => some r | none => node
      let (r, s1) := xmlSearchNs root xmlBytes s
      (r, { s1 with pd := { s1.pd with xml := r } })

/-- `ensure_xlink_ns` (as-libxml.c, lines 73-82): locate the `xlink`
binding lazily; if absent, define it at the root (or at the given node
before a root exists) and cache the result. -/
def ensure_xlink_ns (node : Nat) (s : ConvSt) : Option Nat × ConvSt :=
  match s.pd.xlink with
  | some k => (some k, s)
  | none =>
      let root := s.pd.root.getD node
      let (r, s1) := xmlSearchNs (some root) xlinkBytes s
      match r with
      | some k => (some k, { s1 with pd := { s1.pd with xlink := some k } })
      | none =>
          let (r2, s2) := xmlNewNs root xlinkURI (some xlinkBytes) s1
          (r2, { s2 with pd := { s2.pd with xlink := r2 } })

/-- `find_namespace_by_prefix` (as-libxml.c, lines 86-92): the usual
lexical search, falling back to the designated parent node. -/
def find_namespace_by_pfx (node : Nat) (xml_parent : Option Nat)
    (pfx : List Nat) (s : ConvSt) : Option Nat × ConvSt :=
  let (ans, s1) := xmlSearchNs (some node) pfx s
  match ans with
  | some k => (some k, s1)
  | none =>
      match xml_parent with
      | none => (none, s1)
      | some p => xmlSearchNs (some p) pfx s1

/-- What the C `aname` pointer aliases while one attribute is processed:
the whole source name buffer, its suffix starting at byte `keep`
(after a resolved `prefix:`), or the local shim buffer `buf` (no source
aliasing).  In-place writes through `aname` land in the source attribute
exactly in the first two modes. -/
inductive NameAlias where
  | full
  | sufFrom (keep : Nat)
  | buf
deriving DecidableEq, Repr

/-- Step the alias when `aname` advances past a resolved `prefix:`. -/
def aliasDrop (al : NameAlias) (d : Nat) : NameAlias :=
  match al with
  | .full => .sufFrom d
  | .sufFrom k => .sufFrom (k + d)
  | .buf => .buf

/-- Rebuild the source attribute after in-place writes through `aname`
left the visible bytes as `cur`. -/
def aliasWrite (a : GAttr) (al : NameAlias) (cur : List Nat) : GAttr :=
  match al with
  | .full => { a with aname := cur }
  | .sufFrom k => { a with aname := a.aname.take k ++ cur }
  | .buf => a

/-- The shared emission tail of `create_attributes` (as-libxml.c, lines
201-213): optionally sanitize `aname` in place, intern it, then either
take the once-per-element plain-`lang` path (under XHTML rules, via
`xmlSetNsProp`, result unchecked) or create the attribute with its
resolved namespace.  Returns `(ok, updated source attribute, added_lang)`;
`ok = false` is `return false` in C. -/
def caEmit (node : Nat) (a : GAttr) (cur : List Nat) (al : NameAlias)
    (ns : Option Nat) (added : Nat) (s : ConvSt) :
    (Bool × GAttr × Nat) × ConvSt :=
  let sanitized := if s.pd.sanitize_names then (sanitize_name cur).1 else cur
  let a1 := aliasWrite a al sanitized
  let (attrName?, s1) := xmlDictLookup sanitized sanitized.length s
  match attrName? with
  | none => ((false, a1, added), s1)
  | some attrName =>
      if s1.pd.maybe_xhtml && attrName == s1.pd.lang_attribute then
        if added == 2 then ((true, a1, added), s1)
        else
          let (_, s2) := xmlSetNsProp node none attrName a.aval s1
          ((true, a1, 2), s2)
      else
        let (r, s2) := xmlNewNsPropEatName node ns attrName a.aval s1
        match r with
        | none => ((false, a1, added), s2)
        | some _ => ((true, a1, added), s2)

/-- Outcome of processing one attribute past its classification switch. -/
inductive CaOut where
  | failed (a : GAttr)
  | deferred (a : GAttr)
  | emitted (a : GAttr) (added : Nat)
deriving DecidableEq, Repr

/-- The generic prefix-resolution block of `create_attributes`
(as-libxml.c, lines 180-199) followed by the emission tail: under XHTML
rules a `prefix:local` name is resolved against the node and the parent
scope; an unresolved prefix is deferred on the first pass (the attribute's
original-name slot gets the `REPROCESS` sentinel) and merged with an
underscore on the second; a resolved prefix rewrites `aname` to the local
part and attaches the binding. -/
def caTailEmit (node : Nat) (a : GAttr) (added : Nat) (cur : List Nat)
    (al : NameAlias) (ns : Option Nat) (s : ConvSt) : CaOut × ConvSt :=
  let ((ok, a1, ad), s1) := caEmit node a cur al ns added s
  if ok then (CaOut.emitted a1 ad, s1) else (CaOut.failed a1, s1)

def caTail (node : Nat) (xml_parent : Option Nat) (reprocess : Bool)
    (a : GAttr) (cur : List Nat) (al : NameAlias) (ns : Option Nat)
    (added : Nat) (s : ConvSt) : CaOut × ConvSt :=
  if s.pd.maybe_xhtml then
    match strchrColon cur with
    | some ci =>
        if ci + 1 < cur.length then
          let pfx := cur.take ci
          let (nsr, s1) := find_namespace_by_pfx node xml_parent pfx s
          match nsr with
          | none =>
              if reprocess then
                caTailEmit node a added (cur.set ci 95) al none s1
              else
                (CaOut.deferred { a with reMark := true }, s1)
          | some k => caTailEmit node a added (cur.drop (ci + 1)) (aliasDrop al (ci + 1)) (some k) s1
        else caTailEmit node a added cur al ns s
    | none => caTailEmit node a added cur al ns s
  else caTailEmit node a added cur al ns s

/-- The attribute loop of `create_attributes` (as-libxml.c, lines
114-214), one source attribute at a time.  Returns
`(ok, updated attribute list, needs_reprocess, added_lang)`; the updated
list records the in-place writes the C code makes through the source
attribute records (name bytes and the original-name sentinel). -/
def caLoop (node : Nat) (xml_parent : Option Nat) (reprocess : Bool) :
    List GAttr → Nat → Bool → ConvSt → (Bool × List GAttr × Bool × Nat) × ConvSt
  | [], added, needs, s => ((true, [], needs, added), s)
  | h :: rest, added, needs, s =>
      -- helper continuations shared by the branches below
      let next := fun (h1 : GAttr) (added1 : Nat) (needs1 : Bool) (s1 : ConvSt) =>
        let ((ok, rest1, needs2, added2), s2) :=
          caLoop node xml_parent reprocess rest added1 needs1 s1
        ((ok, h1 :: rest1, needs2, added2), s2)
      let fail := fun (h1 : GAttr) (s1 : ConvSt) =>
        ((false, h1 :: rest, needs, added), s1)
      let tail := fun (cur : List Nat) (al : NameAlias) (ns : Option Nat) (s1 : ConvSt) =>
        let (out, s2) := caTail node xml_parent reprocess h cur al ns added s1
        match out with
        | .failed a1 => ((false, a1 :: rest, needs, added), s2)
        | .deferred a1 => next a1 added true s2
        | .emitted a1 ad => next a1 ad needs s2
      if reprocess && !h.reMark then next h added needs s
      else
        match h.ans with
        | .axlink =>
            let (nsx, s1) := ensure_xlink_ns node s
            match nsx with
            | none => fail h s1
            | some k => tail h.aname .full (some k) s1
        | .axml =>
            let (nsx, s1) := ensure_xml_ns (some node) s
            match nsx with
            | none => fail h s1
            | some k =>
                if s1.pd.maybe_xhtml && h.aname == langBytes then
                  if added == 0 then
                    let (r, s2) := xmlNewNsPropEatName node none s1.pd.lang_attribute h.aval s1
                    match r with
                    | none => fail h s2
                    | some _ => next h 1 needs s2
                  else next h added needs s1
                else tail h.aname .full (some k) s1
        | .axmlns =>
            if startsWithBytes xlinkBytes h.aname then
              let (r, s1) := ensure_xlink_ns node s
              match r with
              | none => fail h s1
              | some _ => next h added needs s1
            else if startsWithBytes xmlnsBytes h.aname then next h added needs s
            else tail h.aname .full none s
        | .anone =>
            if s.pd.maybe_xhtml && startsWithBytes (bytes "xml:lang") h.aname then
              if added == 0 then
                let (r, s1) := xmlNewNsPropEatName node none s.pd.lang_attribute h.aval s
                match r with
                | none => fail h s1
                | some _ => next h 1 needs s1
              else next h added needs s
            else if startsWithBytes xmlnsBytes h.aname then
              if h.aname.length == 5 then next h added needs s
              else if h.aname.get? 5 == some 58 then
                if h.aname.length == 6 then next h added needs s
                else if s.pd.maybe_xhtml then
                  -- creation refused for an in-scope duplicate; result ignored
                  let (_, s1) := xmlNewNs node h.aval (some (h.aname.drop 6)) s
                  next h added needs s1
                else
                  -- snprintf shim into the local 50-byte buffer (truncating)
                  tail ((bytes "xmlns_" ++ h.aname.drop 6).take 48) .buf none s
              else tail h.aname .full none s
            else tail h.aname .full none s

/-- `create_attributes` (as-libxml.c, lines 103-216): one pass over the
element's attributes.  Returns `(ok, updated attributes, needs_reprocess)`. -/
def create_attributes (node : Nat) (attrs : List GAttr)
    (xml_parent : Option Nat) (reprocess : Bool) (s : ConvSt) :
    (Bool × List GAttr × Bool) × ConvSt :=
  let ((ok, attrs1, needs, _), s1) := caLoop node xml_parent reprocess attrs 0 false s
  ((ok, attrs1, needs), s1)

/-- Modelled from the spec: `gumbo_normalized_tagname_and_size` lives in
the external Gumbo parser (out of scope per §1/§4.2); it maps each
standard tag identity to its canonical name.  The concrete spellings are
external, so the model uses an injective placeholder encoding (no claim
depends on the spelling). -/
def gumbo_normalized_tagname (tag : Nat) : List Nat := [tag]

/-- Modelled from the spec: `gumbo_normalize_svg_tagname` lives in the
external Gumbo parser; per §4.5 it yields a normalized name for a few SVG
tags and NULL otherwise, and only the NULL fallback path matters to the
claims, so the model always falls back. -/
def gumbo_normalize_svg_tagname (_orig : List Nat) : Option (List Nat) := none

/-- `lookup_standard_tag` (as-libxml.c, lines 231-239): memoized interning
of standard tag names; a failed interning leaves the cache slot empty. -/
def lookup_standard_tag (tag : Nat) (s : ConvSt) : Option (List Nat) × ConvSt :=
  match s.pd.standard_tags.lookup tag with
  | some nm => (some nm, s)
  | none =>
      let nm := gumbo_normalized_tagname tag
      let (r, s1) := xmlDictLookup nm nm.length s
      match r with
      | some v =>
          (some v, { s1 with pd := { s1.pd with standard_tags := (tag, v) :: s1.pd.standard_tags } })
      | none => (none, s1)

/-- `check_for_namespace_prefix` (as-libxml.c, lines 219-228): split
`prefix:local`, handing back the prefix, or nothing when there is no
colon or the colon ends the string. -/
def check_for_namespace_pfx (tag : List Nat) : Option (List Nat) × List Nat :=
  match strchrColon tag with
  | some ci =>
      if ci + 1 < tag.length then (some (tag.take ci), tag.drop (ci + 1))
      else (none, tag)
  | none => (none, tag)

/-- What `create_element` reads of the Gumbo parent node: whether it is
the document node, and otherwise its element namespace tag
(`parent->type` / `parent->v.element.tag_namespace`). -/
inductive PInfo where
  | pdoc
  | pelem (tagNs : Nat)
deriving DecidableEq, Repr

/-- The continuation of `create_element` after tag-name resolution
(as-libxml.c, lines 262-328): allocate the node, attach the line-number
attribute when configured, attach or inherit a namespace when namespacing
is on, build attributes in up to two passes, and finally honor an
explicit tag prefix if it resolves.  Factored out of `create_element`
purely as code motion; `create_element` below is the function of the
source. -/
def create_element_rest (xml_parent : Option Nat) (pinfo : PInfo)
    (tagNs : Nat) (attrs : List GAttr) (eline : Nat) (opts : Options)
    (tagName? : Option (List Nat)) (nspfx : Option (List Nat))
    (s : ConvSt) : (Option Nat × List GAttr) × ConvSt :=
  match tagName? with
  | none => ((none, attrs), s)
  | some tagName =>
      let (result?, s) := xmlNewDocNodeEatName tagName s
      match result? with
      | none => ((none, attrs), s)
      | some result =>
          let s := modifyNode s result (fun m => { m with line := eline })
          -- optional line-number attribute
          let (lineOk, s) :=
            match opts.line_number_attr with
            | none => (true, s)
            | some lattr =>
                let (r, s1) := xmlNewNsPropEatName result none lattr (decimalBytes eline) s
                (r.isSome, s1)
          if !lineOk then ((none, attrs), s)
          else
            -- namespace attachment
            let (nsOk, s) :=
              if opts.namespace_elements then
                let newNsNeeded :=
                  match pinfo with
                  | .pdoc => true
                  | .pelem pns => tagNs != pns
                if newNsNeeded then
                  let (nspace?, s1) := xmlNewNs result (kLegalXmlns tagNs) none s
                  match nspace? with
                  | none => (false, s1)
                  | some k => (true, xmlSetNs result (some k) s1)
                else
                  let inh := xml_parent.bind (fun p => (getNode s p).bind (fun n => n.ns))
                  (true, xmlSetNs result inh s)
              else (true, s)
            if !nsOk then ((none, attrs), s)
            else
              -- attributes, in up to two passes
              let ((ok1, attrs1, needs), s) := create_attributes result attrs xml_parent false s
              if !ok1 then ((none, attrs1), s)
              else
                let ((ok2, attrs2, _), s) :=
                  if needs then create_attributes result attrs1 xml_parent true s
                  else ((true, attrs1, false), s)
                if !ok2 then ((none, attrs2), s)
                else
                  -- deferred tag-prefix fixup
                  let s :=
                    match nspfx with
                    | none => s
                    | some p =>
                        let (n1, s1) := xmlSearchNs (some result) p s
                        let (n2, s2) :=
                          match n1 with
                          | some k => (some k, s1)
                          | none =>
                              match xml_parent with
                              | some xp => xmlSearchNs (some xp) p s1
                              | none => (none, s1)
                        match n2 with
                        | some k => xmlSetNs result (some k) s2
                        | none => s2
                  ((some result, attrs2), s)

/-- `create_element` (as-libxml.c, lines 244-328): resolve the tag name
(standard / SVG-normalized / unknown-from-original-text, with optional
prefix split under XHTML rules and optional sanitization of the local
copy), then `create_element_rest`.  Returns the created node (NULL on
abort, after freeing it — freed nodes stay in the store as unreachable
orphans) together with the updated source attribute list (in-place
writes through the attribute records). -/
def create_element (xml_parent : Option Nat) (pinfo : PInfo)
    (tag : Nat) (tagNs : Nat) (origTag : List Nat) (attrs : List GAttr)
    (eline : Nat) (opts : Options) (s : ConvSt) :
    (Option Nat × List GAttr) × ConvSt :=
  -- tag resolution
  let (tagName?, nspfx, s) :=
    if GUMBO_TAG_UNKNOWN ≤ tag then
      -- gumbo_tag_from_original_text trims the markup punctuation in the
      -- external parser; `origTag` already holds the trimmed text here.
      -- memcpy into the MAX_TAG_NAME_SZ scratch buffer truncates.
      let buf := origTag.take (MAX_TAG_NAME_SZ - 1)
      let (nspfx, tg) :=
        if s.pd.maybe_xhtml then check_for_namespace_pfx buf else (none, buf)
      let cooked := if s.pd.sanitize_names then (sanitize_name tg).1 else tg
      let (r, s1) := xmlDictLookup cooked cooked.length s
      (r, nspfx, s1)
    else if tagNs == 1 then
      match gumbo_normalize_svg_tagname origTag with
      | none =>
          let (r, s1) := lookup_standard_tag tag s
          (r, none, s1)
      | some t =>
          let (r, s1) := xmlDictLookup t origTag.length s
          (r, none, s1)
    else
      let (r, s1) := lookup_standard_tag tag s
      (r, none, s1)
  create_element_rest xml_parent pinfo tagNs attrs eline opts tagName? nspfx s

/-- `convert_node` (as-libxml.c, lines 331-367): create the libxml node
for one Gumbo node.  The second component reports, for Element/Template
nodes, the data `push_children` needs (the element's namespace tag and
children); an unrecognized node variant records the "unknown gumbo node
type" message and yields NULL. -/
def convert_node (xml_parent : Option Nat) (g : GumboNode) (pinfo : PInfo)
    (opts : Options) (s : ConvSt) :
    (Option Nat × Option (Nat × List GumboNode)) × ConvSt :=
  match g with
  | .element _templ tag tagNs origTag attrs eline children =>
      let ((r, _attrs1), s1) :=
        create_element xml_parent pinfo tag tagNs origTag attrs eline opts s
      -- the in-place attribute rewrites live in the caller's tree; the
      -- walk itself never rereads them
      ((r, some (tagNs, children)), s1)
  | .textNode t =>
      let (r, s1) := xmlNewLeaf .xtext t s
      ((r, none), s1)
  | .whitespaceNode t =>
      let (r, s1) := xmlNewLeaf .xtext t s
      ((r, none), s1)
  | .commentNode t =>
      let (r, s1) := xmlNewLeaf .xcomment t s
      ((r, none), s1)
  | .cdataNode t =>
      -- xmlNewCDataBlock(doc, text, strlen(text))
      let (r, s1) := xmlNewLeaf .xcdata t s
      ((r, none), s1)
  | .documentNode =>
      ((none, none), setErrmsg .unknownNodeType s)

/-!
## The traversal stack and the document converter
-/

/-- The manual traversal stack (stack.h is instantiated at as-libxml.c
line 46-50 but its implementation file is not part of this repository).
Modelled from the spec, §4.1: a LIFO of (source node, target parent)
pairs — plus the Gumbo-parent data `create_element` reads — whose
capacity grows from a configured initial hint, growth failure being an
allocation failure. -/
structure GStack where
  items : List (GumboNode × PInfo × Option Nat)
  cap : Nat
deriving Repr

/-- Modelled from the spec (§4.1): allocate a stack with the configured
capacity hint; NULL on allocation failure. -/
def Stack_alloc (size : Nat) (s : ConvSt) : Option GStack × ConvSt :=
  let (ok, s1) := allocOk s
  if ok then (some ⟨[], size⟩, s1) else (none, s1)

/-- Modelled from the spec (§4.1): push, growing when full; growth is an
allocation that can fail, reported as `false`. -/
def Stack_push (st : GStack) (g : GumboNode) (pinfo : PInfo)
    (xp : Option Nat) (s : ConvSt) : (Bool × GStack) × ConvSt :=
  if st.items.length < st.cap then ((true, ⟨(g, pinfo, xp) :: st.items, st.cap⟩), s)
  else
    let (ok, s1) := allocOk s
    if ok then ((true, ⟨(g, pinfo, xp) :: st.items, max 1 (2 * st.cap)⟩), s1)
    else ((false, st), s1)

/-- The loop body of `push_children`, pushing one prepared child after
another and stopping at the first failed push. -/
def pushList (parentXml : Nat) (tagNs : Nat) :
    List GumboNode → GStack → ConvSt → (Bool × GStack) × ConvSt
  | [], st, s => ((true, st), s)
  | c :: rest, st, s =>
      let ((ok, st1), s1) := Stack_push st c (.pelem tagNs) (some parentXml) s
      if ok then pushList parentXml tagNs rest st1 s1 else ((false, st1), s1)

/-- `push_children` (as-libxml.c, lines 53-60): push the element's
children in reverse index order so the stack pops them in document
order.  The Gumbo parent of each child is the element itself. -/
def push_children (parentXml : Nat) (tagNs : Nat) (children : List GumboNode)
    (st : GStack) (s : ConvSt) : (Bool × GStack) × ConvSt :=
  pushList parentXml tagNs children.reverse st s

/-- The conversion loop of `convert_gumbo_tree_to_libxml_tree`
(as-libxml.c, lines 455-469): pop, convert, link under the target parent
(or record the root), push element children.  `fuel` bounds the number of
iterations; each iteration pops one node and pushes only the popped
node's children, so a fuel of one plus the total node count of everything
on the stack always reaches the loop's own exit. -/
def drainStack (opts : Options) : Nat → GStack → ConvSt → Bool × ConvSt
  | 0, st, s => (st.items.isEmpty, s)
  | Nat.succ f, st, s =>
      match st.items with
      | [] => (true, s)
      | (g, pinfo, parent) :: rest =>
          let ((child?, elemInfo), s1) := convert_node parent g pinfo opts s
          match child? with
          | none => (false, s1)
          | some child =>
              let (linkOk, s2) :=
                match parent with
                | some p =>
                    let (r, s2) := xmlAddChild p child s1
                    (r.isSome, s2)
                | none => (true, { s1 with pd := { s1.pd with root := some child } })
              if !linkOk then (false, s2)
              else
                match elemInfo with
                | some (tagNs, children) =>
                    let ((ok, st2), s3) :=
                      push_children child tagNs children ⟨rest, st.cap⟩ s2
                    if ok then drainStack opts f st2 s3 else (false, s3)
                | none => drainStack opts f ⟨rest, st.cap⟩ s2

/-- The root-language mirroring step of `convert_gumbo_tree_to_libxml_tree`
(as-libxml.c, lines 471-482): under XHTML rules, if the built root
carries a plain `lang` attribute, mirror its value into `xml:lang` on the
root, locating/creating the `xml` binding on demand; the result of the
mirroring attribute creation is not checked. -/
def mirrorRootLang (s : ConvSt) : ConvSt :=
  if s.pd.maybe_xhtml then
    let (rootLang, s1) := xmlGetNsProp s.pd.root s.pd.lang_attribute s
    match rootLang with
    | some v =>
        let (_, s2) := ensure_xml_ns s1.pd.root s1
        match s2.pd.xml with
        | some x =>
            match s2.pd.root with
            | some r =>
                let (_, s3) := xmlNewNsPropEatName r (some x) s2.pd.lang_attribute v s2
                s3
            | none => s2
        | none => s2
    | none => s1
  else s

/-- The loop of `add_root_comments` (as-libxml.c, lines 390-414): walk the
source document's top-level children; the root itself flips the
before/after flag; every comment is recreated and inserted as a sibling
of the target root, before it or after it accordingly.  Failures record
their message and abort. -/
def arcLoop (root : GumboNode) :
    List GumboNode → Bool → ConvSt → Bool × ConvSt
  | [], _, s => (true, s)
  | rn :: rest, before, s =>
      if gumboEq rn root then arcLoop root rest false s
      else
        match rn with
        | .commentNode t =>
            let (c?, s1) := xmlNewLeaf .xcomment t s
            match c? with
            | none => (false, setErrmsg .commentOom s1)
            | some c =>
                let (r, s2) :=
                  if before then xmlAddPrevSibling s1.pd.root c s1
                  else xmlAddSibling s1.pd.root c s1
                match r with
                | none => (false, setErrmsg .addSiblingFailed s2)
                | some _ => arcLoop root rest before s2
        | _ => arcLoop root rest before s

/-- What the converter reads of `GumboOutput`: the root node, the
document node's doctype data, and the document node's ordered top-level
children (which include the root). -/
structure GumboOutput where
  root : GumboNode
  has_doctype : Bool
  doctype_name : List Nat
  doctype_public : List Nat
  doctype_system : List Nat
  doc_children : List GumboNode
deriving Repr

/-- `alloc_doc` (as-libxml.c, lines 371-387): allocate the document and
its dict, and re-intern the configured line-number attribute name in that
dict (the lookup result is stored back unchecked; `doc->encoding` is
cosmetic and elided).  Returns whether the document exists plus the
updated options. -/
def alloc_doc (opts : Options) (s : ConvSt) : (Bool × Options) × ConvSt :=
  let (ok, s1) := allocOk s
  if !ok then ((false, opts), s1)
  else
    let (okd, s2) := allocOk s1
    if !okd then ((false, opts), s2)
    else
      match opts.line_number_attr with
      | some l =>
          let (r, s3) := xmlDictLookup l l.length s2
          ((true, { opts with line_number_attr := r }),
           { s3 with doc := emptyXmlDoc })
      | none => ((true, opts), { s2 with doc := emptyXmlDoc })

/-- `convert_gumbo_tree_to_libxml_tree` (as-libxml.c, lines 422-500).
The result models the C call's two outputs: the returned document (NULL
on failure, after the end-block released everything built) and the
`*errmsg` out-slot.  The final `ConvSt` is also returned so the
instrumentation (`errWrites`) stays observable.  The seed push of the
root (line 437) is the one push whose result the code does not check. -/
def convert_gumbo_tree_to_libxml_tree (out : GumboOutput) (opts : Options)
    (oracle : List Bool) : (Option XmlDoc × Option ErrMsg) × ConvSt :=
  let s : ConvSt := ⟨emptyXmlDoc, initParseData, oracle, 0⟩
  let (stack?, s) := Stack_alloc opts.stack_size s
  match stack? with
  | none => ((none, none), s)
  | some st =>
      let ((_seedOk, st), s) := Stack_push st out.root .pdoc none s
      let ((docOk, opts), s) := alloc_doc opts s
      if !docOk then ((none, s.pd.errmsg), s)
      else
        let (dtOk, s) :=
          if opts.keep_doctype && out.has_doctype then
            let (r, s1) :=
              xmlCreateIntSubset out.doctype_name out.doctype_public
                out.doctype_system s
            (r.isSome, s1)
          else (true, s)
        if !dtOk then ((none, s.pd.errmsg), s)
        else
          let s := { s with pd := { s.pd with
              maybe_xhtml := opts.use_xhtml_rules,
              sanitize_names := opts.sanitize_names } }
          let (langT?, s) := xmlDictLookup (bytes "lang") 4 s
          match langT? with
          | none => ((none, s.pd.errmsg), s)
          | some lg =>
              let s := { s with pd := { s.pd with lang_attribute := lg } }
              let (okLoop, s) := drainStack opts (gsize out.root + 1) st s
              if !okLoop then ((none, s.pd.errmsg), s)
              else
                let s := mirrorRootLang s
                let s := xmlDocSetRootElement s.pd.root s
                let (okC, s) := arcLoop out.root out.doc_children true s
                if !okC then ((none, s.pd.errmsg), s)
                else ((some s.doc, s.pd.errmsg), s)

/-!
## Infrastructure lemmas
-/

/-- The parts of the conversion state the attribute loop never changes:
the strictness/sanitization flags, the interned `lang` name, the absence
of injected allocation failures, and the size of the node store. -/
def ctxStable (s t : ConvSt) : Prop :=
  t.pd.maybe_xhtml = s.pd.maybe_xhtml ∧
  t.pd.sanitize_names = s.pd.sanitize_names ∧
  t.pd.lang_attribute = s.pd.lang_attribute ∧
  (s.oracle = [] → t.oracle = []) ∧
  t.doc.nodes.length = s.doc.nodes.length

/-- The source attribute carried by an attribute-processing outcome. -/
def caOutAttr : CaOut → GAttr
  | .failed a => a
  | .deferred a => a
  | .emitted a _ => a

/-- Whether an outcome defers the attribute to the second pass. -/
def isDeferredOut : CaOut → Bool
  | .deferred _ => true
  | _ => false

/-- A fresh conversion state with both the XHTML-rules flag and the
sanitization flag off. -/
def flagsOffSt : ConvSt := ⟨emptyXmlDoc, initParseData, [], 0⟩

/-- A fresh conversion state under XHTML rules (as the converter sets it
up: `maybe_xhtml` on, the interned `lang` name in place). -/
def cexXhtmlSt : ConvSt :=
  ⟨emptyXmlDoc,
   { initParseData with maybe_xhtml := true, lang_attribute := bytes "lang" },
   [], 0⟩

/-- The attribute `foo:bar="x"` with an undeclared prefix. -/
def fooBarAttr : GAttr := ⟨.anone, bytes "foo:bar", bytes "x", false⟩

/-- Options: XHTML rules on, everything else off. -/
def xhtmlOnlyOpts : Options := ⟨8, false, false, false, none, true⟩

/-- Two nodes that agree on everything except possibly their attribute
list. -/
def sameButProps (a b : XmlNode) : Prop :=
  b.kind = a.kind ∧ b.xname = a.xname ∧ b.parent = a.parent ∧
  b.children = a.children ∧ b.nsDef = a.nsDef ∧ b.ns = a.ns ∧ b.line = a.line

/-- The state `t` differs from `s` at most in the attribute list of node
`node`: context, namespace stores, document structure and every other
node are untouched. -/
def propsOnlyDiff (node : Nat) (s t : ConvSt) : Prop :=
  t.pd = s.pd ∧ t.oracle = s.oracle ∧ t.errWrites = s.errWrites ∧
  t.doc.nss = s.doc.nss ∧ t.doc.oldNs = s.doc.oldNs ∧
  t.doc.rootElement = s.doc.rootElement ∧ t.doc.docChildren = s.doc.docChildren ∧
  t.doc.intSubset = s.doc.intSubset ∧
  t.doc.nodes.length = s.doc.nodes.length ∧
  (∀ i, i ≠ node → t.doc.nodes.get? i = s.doc.nodes.get? i) ∧
  (∀ n, s.doc.nodes.get? node = some n →
    ∃ m, t.doc.nodes.get? node = some m ∧ sameButProps n m)

/-! ## C6: namespace attachment rule -/

/-- C6 counterexample input: a child element whose original tag carries an
undeclared-at-create-time prefix `f` that an `xmlns:f` attribute then
declares, under the same (HTML) tag namespace as its parent. -/
def a6 : GAttr := ⟨.anone, bytes "xmlns:f", bytes "u", false⟩

def c6 : GumboNode := .element false 200 0 (bytes "f:x") [a6] 2 []

def t6 : GumboNode := .element false 1 0 [] [] 1 [c6]

def out6 : GumboOutput := ⟨t6, false, [], [], [], [t6]⟩

/-- C6 counterexample options: namespace_elements and XHTML rules on. -/
def opts6 : Options := ⟨8, false, true, false, none, true⟩

/-- C6 witness input: fresh conversion state. -/
def ceNsSt : ConvSt := ⟨emptyXmlDoc, initParseData, [], 0⟩

/-- C6 witness options: namespace_elements on, everything else off. -/
def ceNsOpts : Options := ⟨8, false, true, false, none, false⟩

/-! ## C7: the lang alias attribute -/

def isBareLang (a : GAttr) : Bool := a.ans == ANS.anone && a.aname == langBytes

def isXmlAliasLang (a : GAttr) : Bool := a.ans == ANS.axml && a.aname == langBytes

def isLitAliasLang (a : GAttr) : Bool :=
  a.ans == ANS.anone && startsWithBytes (bytes "xml:lang") a.aname

def isAliasLang (a : GAttr) : Bool := isXmlAliasLang a || isLitAliasLang a

def langStep (added : Nat) (v : Option (List Nat)) (a : GAttr) :
    Nat × Option (List Nat) :=
  if isBareLang a then (if added = 2 then (added, v) else (2, some a.aval))
  else if added = 0 then (1, some a.aval) else (added, v)

def langFold : List GAttr → Nat → Option (List Nat) → Nat × Option (List Nat)
  | [], ad, v => (ad, v)
  | a :: rest, ad, v => langFold rest (langStep ad v a).1 (langStep ad v a).2

def langAliasValue (attrs : List GAttr) : Option (List Nat) :=
  match attrs.find? isBareLang with
  | some b => some b.aval
  | none => (attrs.find? isAliasLang).map GAttr.aval

def langProp (v : List Nat) : XmlProp := ⟨none, langBytes, v⟩

def isLangProp (pr : XmlProp) : Bool := pr.pns == none && pr.pname == langBytes

def a7a : GAttr := ⟨.axml, bytes "lang", bytes "a", false⟩

def a7b : GAttr := ⟨.anone, bytes "lang", bytes "b", false⟩

def t7 : GumboNode := .element false 1 0 [] [a7a, a7b] 1 []

def out7 : GumboOutput := ⟨t7, false, [], [], [], [t7]⟩

def opts7 : Options := ⟨8, false, false, false, none, true⟩

def c7St : ConvSt := ⟨{ emptyXmlDoc with nodes := [mkXmlNode .xelem [104]] },
  { initParseData with maybe_xhtml := true, lang_attribute := langBytes }, [], 0⟩

/-! ## C4: undeclared prefix merging -/

def c4St : ConvSt := ⟨{ emptyXmlDoc with nodes := [mkXmlNode .xelem [104]] },
  { initParseData with maybe_xhtml := true, lang_attribute := langBytes }, [], 0⟩

def a4 : GAttr := ⟨.anone, bytes "foo:bar", bytes "x", false⟩

def t4 : GumboNode := .element false 1 0 [] [a4] 1 []

def out4 : GumboOutput := ⟨t4, false, [], [], [], [t4]⟩

def opts4 : Options := ⟨8, false, false, false, none, false⟩

/-! ## C5: mirroring the root lang attribute -/

def rootLangNode : XmlNode :=
  { mkXmlNode .xelem [104] with props := [XmlProp.mk none langBytes (bytes "en")] }

def c5St : ConvSt := ⟨{ emptyXmlDoc with nodes := [rootLangNode] },
  { initParseData with maybe_xhtml := true, root := some 0, lang_attribute := langBytes },
  [], 0⟩

def a5 : GAttr := ⟨.anone, bytes "lang", bytes "en", false⟩

def t5 : GumboNode := .element false 1 0 [] [a5] 1 []

def out5 : GumboOutput := ⟨t5, false, [], [], [], [t5]⟩

def opts5 : Options := ⟨8, false, false, false, none, true⟩

/-! ## C1 and C2: failure behaviour of the top-level conversion -/

def t1 : GumboNode := .element false 1 0 [] [] 1 []

def out1 : GumboOutput := ⟨t1, false, [], [], [], [t1]⟩

/-- C1 failing options: a zero-capacity traversal stack, so the seed push
must grow the stack. -/
def opts1 : Options := ⟨0, false, false, false, none, false⟩

/-- C2 failing options: an adequate stack, so the second allocation tick
is consumed inside the conversion proper. -/
def opts2 : Options := ⟨4, false, false, false, none, false⟩

/-!
## Theorems

The infrastructure lemmas, the per-claim theorems, their witnesses and
the counterexamples.
-/

theorem sanitizeRest_length (l : List Nat) : (sanitizeRest l).length = l.length := by
  simp [sanitizeRest]

theorem sanitizeRest_get (l : List Nat) (i : Nat) :
    (sanitizeRest l).get? i = (l.get? i).map (fun c => if VALID_CHAR c then c else 95) := by
  simp [sanitizeRest, List.getElem?_map]

/-- C8: `sanitize_name` replaces the first byte with `'_'` unless it is an
ASCII letter or underscore, replaces every later byte with `'_'` unless it
is an ASCII letter, digit, underscore, hyphen or period, and itself
returns the final length of the name — stated pointwise over the bytes of
an arbitrary input string. -/
theorem sanitize_name_pointwise (l : List Nat) :
    ((sanitize_name l).1.get? 0 =
        (l.get? 0).map (fun c => if VALID_FIRST_CHAR c then c else 95)) ∧
    (∀ i : Nat, 0 < i →
      (sanitize_name l).1.get? i =
        (l.get? i).map (fun c => if VALID_CHAR c then c else 95)) ∧
    (sanitize_name l).2 = l.length := by
  cases l with
  | nil => simp [sanitize_name]
  | cons c rest =>
      refine ⟨by simp [sanitize_name], ?_, by simp [sanitize_name]; omega⟩
      intro i hi
      cases i with
      | zero => omega
      | succ j =>
          have := sanitizeRest_get rest j
          simpa [sanitize_name] using this

theorem valid_first_underscore : VALID_FIRST_CHAR 95 = true := by decide

theorem valid_char_underscore : VALID_CHAR 95 = true := by decide

theorem valid_char_idem (c : Nat) :
    VALID_CHAR (if VALID_CHAR c then c else 95) = true := by
  by_cases h : VALID_CHAR c <;> simp [h, valid_char_underscore]

/-- C9: sanitization is idempotent — applying `sanitize_name` to an
already-sanitized string returns it unchanged, with the same length. -/
theorem sanitize_name_idempotent (l : List Nat) :
    sanitize_name (sanitize_name l).1 = sanitize_name l := by
  cases l with
  | nil => simp [sanitize_name]
  | cons c rest =>
      simp only [sanitize_name, Prod.mk.injEq, List.cons.injEq]
      refine ⟨⟨?_, ?_⟩, by simp [sanitizeRest_length]⟩
      · by_cases h : VALID_FIRST_CHAR c <;>
          simp [h, valid_first_underscore]
      · simp only [sanitizeRest, List.map_map]
        apply List.map_congr_left
        intro a _
        simp [valid_char_idem]

/-- C10 (implicit): `sanitize_name` rewrites bytes one for one, so the
sanitized content has exactly the length of the input, the returned length
equals that same length (never shorter), and the empty string comes back
unchanged with length 0. -/
theorem sanitize_name_length_preserving (l : List Nat) :
    (sanitize_name l).1.length = l.length ∧
    (sanitize_name l).2 = l.length ∧
    sanitize_name [] = ([], 0) := by
  refine ⟨?_, ?_, rfl⟩ <;> cases l
  case _ => rfl
  case _ => simp [sanitize_name, sanitizeRest_length]
  case _ => rfl
  case _ c rest => simp [sanitize_name]; omega

theorem listModify_length (l : List α) (i : Nat) (f : α → α) :
    (listModify l i f).length = l.length := by
  induction l generalizing i with
  | nil => simp [listModify]
  | cons x xs ih =>
      cases i with
      | zero => simp [listModify]
      | succ j => simp [listModify, ih]

theorem listModify_get_ne (l : List α) (i j : Nat) (f : α → α) (h : j ≠ i) :
    (listModify l i f).get? j = l.get? j := by
  induction l generalizing i j with
  | nil => simp [listModify]
  | cons x xs ih =>
      cases i with
      | zero =>
          cases j with
          | zero => omega
          | succ k => simp [listModify]
      | succ i' =>
          cases j with
          | zero => simp [listModify]
          | succ k => simpa [listModify] using ih i' k (by omega)

theorem listModify_get_eq (l : List α) (i : Nat) (f : α → α) :
    (listModify l i f).get? i = (l.get? i).map f := by
  induction l generalizing i with
  | nil => simp [listModify]
  | cons x xs ih =>
      cases i with
      | zero => simp [listModify]
      | succ j => simpa [listModify] using ih j

theorem ctxStable_refl (s : ConvSt) : ctxStable s s :=
  ⟨rfl, rfl, rfl, fun h => h, rfl⟩

theorem ctxStable_trans {s t u : ConvSt} (h1 : ctxStable s t)
    (h2 : ctxStable t u) : ctxStable s u := by
  obtain ⟨a1, b1, c1, d1, e1⟩ := h1
  obtain ⟨a2, b2, c2, d2, e2⟩ := h2
  exact ⟨a2.trans a1, b2.trans b1, c2.trans c1, fun h => d2 (d1 h), e2.trans e1⟩

theorem ctxStable_allocOk (s : ConvSt) : ctxStable s (allocOk s).2 := by
  unfold allocOk
  cases h : s.oracle with
  | nil => exact ctxStable_refl s
  | cons b r => exact ⟨rfl, rfl, rfl, fun hz => by simp [h] at hz, rfl⟩

theorem allocOk_empty (s : ConvSt) (h : s.oracle = []) : allocOk s = (true, s) := by
  unfold allocOk
  rw [h]

theorem ctxStable_modifyNode (s : ConvSt) (i : Nat) (f : XmlNode → XmlNode) :
    ctxStable s (modifyNode s i f) := by
  refine ⟨rfl, rfl, rfl, fun h => h, ?_⟩
  simp [modifyNode, listModify_length]

theorem ctxStable_xmlDictLookup (name : List Nat) (len : Nat) (s : ConvSt) :
    ctxStable s (xmlDictLookup name len s).2 := by
  have h := ctxStable_allocOk s
  rcases hA : allocOk s with ⟨ok, s1⟩
  rw [hA] at h
  unfold xmlDictLookup
  rw [hA]
  dsimp only
  split <;> exact h

theorem ctxStable_stateNss (s : ConvSt) (nss : List XmlNs) (oldNs : Option Nat) :
    ctxStable s { s with doc := { s.doc with nss := nss, oldNs := oldNs } } :=
  ⟨rfl, rfl, rfl, fun h => h, rfl⟩

theorem ctxStable_xmlSearchNs (node : Option Nat) (pfx : List Nat) (s : ConvSt) :
    ctxStable s (xmlSearchNs node pfx s).2 := by
  have h := ctxStable_allocOk s
  rcases hA : allocOk s with ⟨ok, s1⟩
  rw [hA] at h
  unfold xmlSearchNs
  cases node with
  | none => exact ctxStable_refl s
  | some i =>
      dsimp only
      split
      · split
        · exact ctxStable_refl s
        · rw [hA]
          dsimp only
          split
          · exact ctxStable_trans h ⟨rfl, rfl, rfl, fun hh => hh, rfl⟩
          · exact h
      · exact ctxStable_refl s

theorem ctxStable_xmlNewNs (node : Nat) (href : List Nat)
    (pfx : Option (List Nat)) (s : ConvSt) :
    ctxStable s (xmlNewNs node href pfx s).2 := by
  have h := ctxStable_allocOk s
  rcases hA : allocOk s with ⟨ok, s1⟩
  rw [hA] at h
  unfold xmlNewNs
  split
  · exact ctxStable_refl s
  · split
    · exact ctxStable_refl s
    · rw [hA]
      dsimp only
      split
      · exact ctxStable_trans h
          (ctxStable_trans (ctxStable_stateNss s1 _ s1.doc.oldNs)
            (ctxStable_modifyNode _ node _))
      · exact h

theorem ctxStable_xmlNewNsPropEatName (node : Nat) (ns : Option Nat)
    (name value : List Nat) (s : ConvSt) :
    ctxStable s (xmlNewNsPropEatName node ns name value s).2 := by
  have h := ctxStable_allocOk s
  rcases hA : allocOk s with ⟨ok, s1⟩
  rw [hA] at h
  unfold xmlNewNsPropEatName
  split
  · exact ctxStable_refl s
  · rw [hA]
    dsimp only
    split
    · exact ctxStable_trans h (ctxStable_modifyNode _ node _)
    · exact h

theorem ctxStable_xmlSetNsProp (node : Nat) (ns : Option Nat)
    (name value : List Nat) (s : ConvSt) :
    ctxStable s (xmlSetNsProp node ns name value s).2 := by
  have h := ctxStable_allocOk s
  rcases hA : allocOk s with ⟨ok, s1⟩
  rw [hA] at h
  unfold xmlSetNsProp
  split
  · exact ctxStable_refl s
  · split
    · exact ctxStable_modifyNode _ node _
    · rw [hA]
      dsimp only
      split
      · exact ctxStable_trans h (ctxStable_modifyNode _ node _)
      · exact h

theorem ctxStable_xmlGetNsProp (node : Option Nat) (name : List Nat) (s : ConvSt) :
    ctxStable s (xmlGetNsProp node name s).2 := by
  have h := ctxStable_allocOk s
  rcases hA : allocOk s with ⟨ok, s1⟩
  rw [hA] at h
  unfold xmlGetNsProp
  split
  · exact ctxStable_refl s
  · split
    · exact ctxStable_refl s
    · split
      · rw [hA]
        dsimp only
        split <;> exact h
      · exact ctxStable_refl s

theorem ctxStable_ensure_xml_ns (node : Option Nat) (s : ConvSt) :
    ctxStable s (ensure_xml_ns node s).2 := by
  unfold ensure_xml_ns
  split
  · exact ctxStable_refl s
  · dsimp only
    have h := ctxStable_xmlSearchNs
      (match s.pd.root with | some r => some r | none => node) xmlBytes s
    rcases hA : xmlSearchNs
      (match s.pd.root with | some r => some r | none => node) xmlBytes s with ⟨r, s1⟩
    rw [hA] at h
    dsimp only
    exact ctxStable_trans h ⟨rfl, rfl, rfl, fun hh => hh, rfl⟩

theorem ctxStable_ensure_xlink_ns (node : Nat) (s : ConvSt) :
    ctxStable s (ensure_xlink_ns node s).2 := by
  unfold ensure_xlink_ns
  split
  · exact ctxStable_refl s
  · dsimp only
    have h := ctxStable_xmlSearchNs (some (s.pd.root.getD node)) xlinkBytes s
    rcases hA : xmlSearchNs (some (s.pd.root.getD node)) xlinkBytes s with ⟨r, s1⟩
    rw [hA] at h
    dsimp only
    cases r with
    | some k => exact ctxStable_trans h ⟨rfl, rfl, rfl, fun hh => hh, rfl⟩
    | none =>
        have h2 := ctxStable_xmlNewNs (s.pd.root.getD node) xlinkURI (some xlinkBytes) s1
        rcases hB : xmlNewNs (s.pd.root.getD node) xlinkURI (some xlinkBytes) s1 with ⟨r2, s2⟩
        rw [hB] at h2
        dsimp only
        exact ctxStable_trans (ctxStable_trans h h2) ⟨rfl, rfl, rfl, fun hh => hh, rfl⟩

theorem ctxStable_find_namespace_by_pfx (node : Nat) (xml_parent : Option Nat)
    (pfx : List Nat) (s : ConvSt) :
    ctxStable s (find_namespace_by_pfx node xml_parent pfx s).2 := by
  unfold find_namespace_by_pfx
  dsimp only
  have h := ctxStable_xmlSearchNs (some node) pfx s
  rcases hA : xmlSearchNs (some node) pfx s with ⟨r, s1⟩
  rw [hA] at h
  dsimp only
  cases r with
  | some k => exact h
  | none =>
      cases xml_parent with
      | none => exact h
      | some p =>
          dsimp only
          have h2 := ctxStable_xmlSearchNs (some p) pfx s1
          rcases hB : xmlSearchNs (some p) pfx s1 with ⟨r2, s2⟩
          rw [hB] at h2
          exact ctxStable_trans h h2

theorem aliasWrite_aval (a : GAttr) (al : NameAlias) (cur : List Nat) :
    (aliasWrite a al cur).aval = a.aval := by
  cases al <;> rfl

theorem aliasWrite_ans (a : GAttr) (al : NameAlias) (cur : List Nat) :
    (aliasWrite a al cur).ans = a.ans := by
  cases al <;> rfl

theorem aliasWrite_reMark (a : GAttr) (al : NameAlias) (cur : List Nat) :
    (aliasWrite a al cur).reMark = a.reMark := by
  cases al <;> rfl

theorem aliasWrite_full_self (a : GAttr) : aliasWrite a .full a.aname = a := by
  cases a
  rfl

theorem caEmit_attr (node : Nat) (a : GAttr) (cur : List Nat) (al : NameAlias)
    (ns : Option Nat) (added : Nat) (s : ConvSt) :
    (caEmit node a cur al ns added s).1.2.1 =
      aliasWrite a al (if s.pd.sanitize_names then (sanitize_name cur).1 else cur) := by
  unfold caEmit
  dsimp only
  rcases hA : xmlDictLookup (if s.pd.sanitize_names = true then (sanitize_name cur).1 else cur)
      (if s.pd.sanitize_names = true then (sanitize_name cur).1 else cur).length s with ⟨an, s1⟩
  dsimp only
  cases an with
  | none => rfl
  | some an =>
      dsimp only
      split
      · split <;> rfl
      · rcases hB : xmlNewNsPropEatName node ns an a.aval s1 with ⟨r, s2⟩
        dsimp only
        cases r <;> rfl

theorem caEmit_stable (node : Nat) (a : GAttr) (cur : List Nat) (al : NameAlias)
    (ns : Option Nat) (added : Nat) (s : ConvSt) :
    ctxStable s (caEmit node a cur al ns added s).2 := by
  unfold caEmit
  dsimp only
  have hD := ctxStable_xmlDictLookup
    (if s.pd.sanitize_names = true then (sanitize_name cur).1 else cur)
    (if s.pd.sanitize_names = true then (sanitize_name cur).1 else cur).length s
  rcases hA : xmlDictLookup (if s.pd.sanitize_names = true then (sanitize_name cur).1 else cur)
      (if s.pd.sanitize_names = true then (sanitize_name cur).1 else cur).length s with ⟨an, s1⟩
  rw [hA] at hD
  dsimp only
  cases an with
  | none => exact hD
  | some an =>
      dsimp only
      split
      · split
        · exact hD
        · have hP := ctxStable_xmlSetNsProp node none an a.aval s1
          rcases hB : xmlSetNsProp node none an a.aval s1 with ⟨r, s2⟩
          rw [hB] at hP
          exact ctxStable_trans hD hP
      · have hP := ctxStable_xmlNewNsPropEatName node ns an a.aval s1
        rcases hB : xmlNewNsPropEatName node ns an a.aval s1 with ⟨r, s2⟩
        rw [hB] at hP
        dsimp only
        cases r with
        | none => exact ctxStable_trans hD hP
        | some u => exact ctxStable_trans hD hP

theorem caTailEmit_spec (node : Nat) (a : GAttr) (added : Nat) (cur : List Nat)
    (al : NameAlias) (ns : Option Nat) (s : ConvSt) :
    ctxStable s (caTailEmit node a added cur al ns s).2 ∧
    caOutAttr (caTailEmit node a added cur al ns s).1 =
      aliasWrite a al (if s.pd.sanitize_names then (sanitize_name cur).1 else cur) ∧
    isDeferredOut (caTailEmit node a added cur al ns s).1 = false := by
  have hA := caEmit_attr node a cur al ns added s
  have hS := caEmit_stable node a cur al ns added s
  unfold caTailEmit
  rcases hE : caEmit node a cur al ns added s with ⟨⟨ok, a1, ad⟩, s1⟩
  rw [hE] at hA hS
  dsimp only at hA ⊢
  cases ok with
  | true => exact ⟨hS, hA, rfl⟩
  | false => exact ⟨hS, hA, rfl⟩

theorem caTail_spec (node : Nat) (xp : Option Nat) (rp : Bool) (a : GAttr)
    (cur : List Nat) (al : NameAlias) (ns : Option Nat) (added : Nat) (s : ConvSt) :
    ctxStable s (caTail node xp rp a cur al ns added s).2 ∧
    (caOutAttr (caTail node xp rp a cur al ns added s).1).aval = a.aval ∧
    (caOutAttr (caTail node xp rp a cur al ns added s).1).ans = a.ans ∧
    (s.pd.maybe_xhtml = false → s.pd.sanitize_names = false → al = .full → cur = a.aname →
      caOutAttr (caTail node xp rp a cur al ns added s).1 = a ∧
      isDeferredOut (caTail node xp rp a cur al ns added s).1 = false) ∧
    (s.pd.maybe_xhtml = false → al = .buf →
      caOutAttr (caTail node xp rp a cur al ns added s).1 = a ∧
      isDeferredOut (caTail node xp rp a cur al ns added s).1 = false) := by
  unfold caTail
  by_cases hmx : s.pd.maybe_xhtml = true
  · simp only [hmx, if_true]
    cases hC : strchrColon cur with
    | none =>
        have h := caTailEmit_spec node a added cur al ns s
        refine ⟨h.1, ?_, ?_, fun hf => Bool.noConfusion hf, fun hf => Bool.noConfusion hf⟩
        · rw [h.2.1]
          exact aliasWrite_aval ..
        · rw [h.2.1]
          exact aliasWrite_ans ..
    | some ci =>
        dsimp only
        split
        · have hF := ctxStable_find_namespace_by_pfx node xp (cur.take ci) s
          rcases hfind : find_namespace_by_pfx node xp (cur.take ci) s with ⟨nsr, s1⟩
          rw [hfind] at hF
          dsimp only
          cases nsr with
          | none =>
              dsimp only
              split
              · have h := caTailEmit_spec node a added (cur.set ci 95) al none s1
                refine ⟨ctxStable_trans hF h.1, ?_, ?_,
                  fun hf => Bool.noConfusion hf, fun hf => Bool.noConfusion hf⟩
                · rw [h.2.1]
                  exact aliasWrite_aval ..
                · rw [h.2.1]
                  exact aliasWrite_ans ..
              · exact ⟨hF, rfl, rfl, fun hf => Bool.noConfusion hf, fun hf => Bool.noConfusion hf⟩
          | some k =>
              have h := caTailEmit_spec node a added (cur.drop (ci + 1)) (aliasDrop al (ci + 1)) (some k) s1
              refine ⟨ctxStable_trans hF h.1, ?_, ?_,
                fun hf => Bool.noConfusion hf, fun hf => Bool.noConfusion hf⟩
              · rw [h.2.1]
                exact aliasWrite_aval ..
              · rw [h.2.1]
                exact aliasWrite_ans ..
        · have h := caTailEmit_spec node a added cur al ns s
          refine ⟨h.1, ?_, ?_, fun hf => Bool.noConfusion hf, fun hf => Bool.noConfusion hf⟩
          · rw [h.2.1]
            exact aliasWrite_aval ..
          · rw [h.2.1]
            exact aliasWrite_ans ..
  · have hmx' : s.pd.maybe_xhtml = false := by
      cases h : s.pd.maybe_xhtml with
      | true => exact absurd h hmx
      | false => rfl
    simp only [hmx', Bool.false_eq_true, if_false]
    have h := caTailEmit_spec node a added cur al ns s
    refine ⟨h.1, ?_, ?_, ?_, ?_⟩
    · rw [h.2.1]
      exact aliasWrite_aval ..
    · rw [h.2.1]
      exact aliasWrite_ans ..
    · intro _ hsan hal hc
      refine ⟨?_, h.2.2⟩
      rw [h.2.1, hsan, hal, hc]
      simp only [Bool.false_eq_true, if_false]
      exact aliasWrite_full_self a
    · intro _ hal
      refine ⟨?_, h.2.2⟩
      rw [h.2.1, hal]
      rfl

theorem caLoop_spec (node : Nat) (xp : Option Nat) (rp : Bool) (attrs : List GAttr) :
    ∀ (added : Nat) (needs : Bool) (s : ConvSt),
    ctxStable s (caLoop node xp rp attrs added needs s).2 ∧
    (caLoop node xp rp attrs added needs s).1.2.1.map GAttr.aval = attrs.map GAttr.aval ∧
    (caLoop node xp rp attrs added needs s).1.2.1.map GAttr.ans = attrs.map GAttr.ans ∧
    (caLoop node xp rp attrs added needs s).1.2.1.length = attrs.length ∧
    (s.pd.maybe_xhtml = false → s.pd.sanitize_names = false →
      (caLoop node xp rp attrs added needs s).1.2.1 = attrs) := by
  induction attrs with
  | nil =>
      intro added needs s
      exact ⟨ctxStable_refl s, rfl, rfl, rfl, fun _ _ => rfl⟩
  | cons h t ih =>
      intro added needs s
      have Hnext : ∀ (h1 : GAttr) (a1 : Nat) (n1 : Bool) (s1 : ConvSt),
          ctxStable s s1 → h1.aval = h.aval → h1.ans = h.ans →
          (s.pd.maybe_xhtml = false → s.pd.sanitize_names = false → h1 = h) →
          ctxStable s (caLoop node xp rp t a1 n1 s1).2 ∧
          (h1 :: (caLoop node xp rp t a1 n1 s1).1.2.1).map GAttr.aval = (h :: t).map GAttr.aval ∧
          (h1 :: (caLoop node xp rp t a1 n1 s1).1.2.1).map GAttr.ans = (h :: t).map GAttr.ans ∧
          (h1 :: (caLoop node xp rp t a1 n1 s1).1.2.1).length = (h :: t).length ∧
          (s.pd.maybe_xhtml = false → s.pd.sanitize_names = false →
            h1 :: (caLoop node xp rp t a1 n1 s1).1.2.1 = h :: t) := by
        intro h1 a1 n1 s1 hs hv ha hid
        obtain ⟨ihS, ihV, ihA, ihL, ihI⟩ := ih a1 n1 s1
        refine ⟨ctxStable_trans hs ihS, ?_, ?_, ?_, ?_⟩
        · simp [ihV, hv]
        · simp [ihA, ha]
        · simp [ihL]
        · intro hmx hsan
          have f1 : s1.pd.maybe_xhtml = false := by rw [hs.1, hmx]
          have f2 : s1.pd.sanitize_names = false := by rw [hs.2.1, hsan]
          rw [hid hmx hsan, ihI f1 f2]
      have Hfail : ∀ (h1 : GAttr) (s1 : ConvSt),
          ctxStable s s1 → h1.aval = h.aval → h1.ans = h.ans →
          (s.pd.maybe_xhtml = false → s.pd.sanitize_names = false → h1 = h) →
          ctxStable s s1 ∧
          (h1 :: t).map GAttr.aval = (h :: t).map GAttr.aval ∧
          (h1 :: t).map GAttr.ans = (h :: t).map GAttr.ans ∧
          (h1 :: t).length = (h :: t).length ∧
          (s.pd.maybe_xhtml = false → s.pd.sanitize_names = false → h1 :: t = h :: t) := by
        intro h1 s1 hs hv ha hid
        refine ⟨hs, by simp [hv], by simp [ha], by simp, ?_⟩
        intro hmx hsan
        rw [hid hmx hsan]
      -- a leaf that ran caTail on (cur, al) = (h.aname, .full) from state s0
      have Htail : ∀ (s0 : ConvSt) (k : Option Nat), ctxStable s s0 →
          (∀ a1, (caTail node xp rp h h.aname .full k added s0).1 = CaOut.failed a1 →
            ctxStable s (caTail node xp rp h h.aname .full k added s0).2 ∧
            (a1 :: t).map GAttr.aval = (h :: t).map GAttr.aval ∧
            (a1 :: t).map GAttr.ans = (h :: t).map GAttr.ans ∧
            (a1 :: t).length = (h :: t).length ∧
            (s.pd.maybe_xhtml = false → s.pd.sanitize_names = false → a1 :: t = h :: t)) ∧
          (∀ a1, (caTail node xp rp h h.aname .full k added s0).1 = CaOut.deferred a1 →
            ∀ a2 n2,
            ctxStable s (caLoop node xp rp t a2 n2 (caTail node xp rp h h.aname .full k added s0).2).2 ∧
            (a1 :: (caLoop node xp rp t a2 n2 (caTail node xp rp h h.aname .full k added s0).2).1.2.1).map GAttr.aval = (h :: t).map GAttr.aval ∧
            (a1 :: (caLoop node xp rp t a2 n2 (caTail node xp rp h h.aname .full k added s0).2).1.2.1).map GAttr.ans = (h :: t).map GAttr.ans ∧
            (a1 :: (caLoop node xp rp t a2 n2 (caTail node xp rp h h.aname .full k added s0).2).1.2.1).length = (h :: t).length ∧
            (s.pd.maybe_xhtml = false → s.pd.sanitize_names = false →
              a1 :: (caLoop node xp rp t a2 n2 (caTail node xp rp h h.aname .full k added s0).2).1.2.1 = h :: t)) ∧
          (∀ a1 ad, (caTail node xp rp h h.aname .full k added s0).1 = CaOut.emitted a1 ad →
            ∀ a2 n2,
            ctxStable s (caLoop node xp rp t a2 n2 (caTail node xp rp h h.aname .full k added s0).2).2 ∧
            (a1 :: (caLoop node xp rp t a2 n2 (caTail node xp rp h h.aname .full k added s0).2).1.2.1).map GAttr.aval = (h :: t).map GAttr.aval ∧
            (a1 :: (caLoop node xp rp t a2 n2 (caTail node xp rp h h.aname .full k added s0).2).1.2.1).map GAttr.ans = (h :: t).map GAttr.ans ∧
            (a1 :: (caLoop node xp rp t a2 n2 (caTail node xp rp h h.aname .full k added s0).2).1.2.1).length = (h :: t).length ∧
            (s.pd.maybe_xhtml = false → s.pd.sanitize_names = false →
              a1 :: (caLoop node xp rp t a2 n2 (caTail node xp rp h h.aname .full k added s0).2).1.2.1 = h :: t)) := by
        intro s0 k hs0
        obtain ⟨tS, tV, tA, tId, _⟩ := caTail_spec node xp rp h h.aname .full k added s0
        have hid : ∀ out1, (caTail node xp rp h h.aname .full k added s0).1 = out1 →
            s.pd.maybe_xhtml = false → s.pd.sanitize_names = false →
            caOutAttr out1 = h ∧ isDeferredOut out1 = false := by
          intro out1 hq hmx hsan
          have f1 : s0.pd.maybe_xhtml = false := by rw [hs0.1, hmx]
          have f2 : s0.pd.sanitize_names = false := by rw [hs0.2.1, hsan]
          rw [hq] at tId
          exact tId f1 f2 rfl rfl
        refine ⟨?_, ?_, ?_⟩
        · intro a1 heq
          rw [heq] at tV tA
          simp only [caOutAttr] at tV tA
          refine Hfail a1 _ (ctxStable_trans hs0 tS) tV tA ?_
          intro hmx hsan
          have := (hid _ heq hmx hsan).1
          simpa [caOutAttr] using this
        · intro a1 heq a2 n2
          rw [heq] at tV tA
          simp only [caOutAttr] at tV tA
          refine Hnext a1 a2 n2 _ (ctxStable_trans hs0 tS) tV tA ?_
          intro hmx hsan
          have := (hid _ heq hmx hsan).2
          simp [isDeferredOut] at this
        · intro a1 ad heq a2 n2
          rw [heq] at tV tA
          simp only [caOutAttr] at tV tA
          refine Hnext a1 a2 n2 _ (ctxStable_trans hs0 tS) tV tA ?_
          intro hmx hsan
          have := (hid _ heq hmx hsan).1
          simpa [caOutAttr] using this
      unfold caLoop
      dsimp only
      split
      · exact Hnext h added needs s (ctxStable_refl s) rfl rfl (fun _ _ => rfl)
      · cases hAns : h.ans with
        | axlink =>
            have eS := ctxStable_ensure_xlink_ns node s
            cases hE : (ensure_xlink_ns node s).1 with
            | none =>
                dsimp only
                exact Hfail h _ eS rfl rfl (fun _ _ => rfl)
            | some k =>
                dsimp only
                obtain ⟨hT1, hT2, hT3⟩ := Htail (ensure_xlink_ns node s).2 (some k) eS
                cases hT : (caTail node xp rp h h.aname .full (some k) added
                    (ensure_xlink_ns node s).2).1 with
                | failed a1 => dsimp only; exact hT1 a1 hT
                | deferred a1 => dsimp only; exact hT2 a1 hT added true
                | emitted a1 ad => dsimp only; exact hT3 a1 ad hT ad needs
        | axml =>
            have eS := ctxStable_ensure_xml_ns (some node) s
            cases hE : (ensure_xml_ns (some node) s).1 with
            | none =>
                dsimp only
                exact Hfail h _ eS rfl rfl (fun _ _ => rfl)
            | some k =>
                dsimp only
                split
                · split
                  · cases hP : (xmlNewNsPropEatName node none
                        (ensure_xml_ns (some node) s).2.pd.lang_attribute h.aval
                        (ensure_xml_ns (some node) s).2).1 with
                    | none =>
                        dsimp only
                        exact Hfail h _ (ctxStable_trans eS
                            (ctxStable_xmlNewNsPropEatName node none
                              (ensure_xml_ns (some node) s).2.pd.lang_attribute h.aval
                              (ensure_xml_ns (some node) s).2)) rfl rfl (fun _ _ => rfl)
                    | some u =>
                        dsimp only
                        exact Hnext h 1 needs _ (ctxStable_trans eS
                            (ctxStable_xmlNewNsPropEatName node none
                              (ensure_xml_ns (some node) s).2.pd.lang_attribute h.aval
                              (ensure_xml_ns (some node) s).2)) rfl rfl (fun _ _ => rfl)
                  · exact Hnext h added needs _ eS rfl rfl (fun _ _ => rfl)
                · obtain ⟨hT1, hT2, hT3⟩ := Htail (ensure_xml_ns (some node) s).2 (some k) eS
                  cases hT : (caTail node xp rp h h.aname .full (some k) added
                      (ensure_xml_ns (some node) s).2).1 with
                  | failed a1 => dsimp only; exact hT1 a1 hT
                  | deferred a1 => dsimp only; exact hT2 a1 hT added true
                  | emitted a1 ad => dsimp only; exact hT3 a1 ad hT ad needs
        | axmlns =>
            dsimp only
            split
            · have eS := ctxStable_ensure_xlink_ns node s
              cases hE : (ensure_xlink_ns node s).1 with
              | none =>
                  dsimp only
                  exact Hfail h _ eS rfl rfl (fun _ _ => rfl)
              | some k =>
                  dsimp only
                  exact Hnext h added needs _ eS rfl rfl (fun _ _ => rfl)
            · split
              · exact Hnext h added needs s (ctxStable_refl s) rfl rfl (fun _ _ => rfl)
              · obtain ⟨hT1, hT2, hT3⟩ := Htail s none (ctxStable_refl s)
                cases hT : (caTail node xp rp h h.aname .full none added s).1 with
                | failed a1 => dsimp only; exact hT1 a1 hT
                | deferred a1 => dsimp only; exact hT2 a1 hT added true
                | emitted a1 ad => dsimp only; exact hT3 a1 ad hT ad needs
        | anone =>
            dsimp only
            split
            · split
              · cases hP : (xmlNewNsPropEatName node none
                    s.pd.lang_attribute h.aval s).1 with
                | none =>
                    dsimp only
                    exact Hfail h _ (ctxStable_xmlNewNsPropEatName node none
                      s.pd.lang_attribute h.aval s) rfl rfl (fun _ _ => rfl)
                | some u =>
                    dsimp only
                    exact Hnext h 1 needs _ (ctxStable_xmlNewNsPropEatName node none
                      s.pd.lang_attribute h.aval s) rfl rfl (fun _ _ => rfl)
              · exact Hnext h added needs s (ctxStable_refl s) rfl rfl (fun _ _ => rfl)
            · split
              · split
                · exact Hnext h added needs s (ctxStable_refl s) rfl rfl (fun _ _ => rfl)
                · split
                  · split
                    · exact Hnext h added needs s (ctxStable_refl s) rfl rfl (fun _ _ => rfl)
                    · split
                      · exact Hnext h added needs _
                          (ctxStable_xmlNewNs node h.aval (some (h.aname.drop 6)) s)
                          rfl rfl (fun _ _ => rfl)
                      · -- the xmlns_ shim path: caTail with the local buffer
                        rename_i hmxb
                        obtain ⟨tS, tV, tA, _, tBuf⟩ :=
                          caTail_spec node xp rp h ((bytes "xmlns_" ++ h.aname.drop 6).take 48)
                            .buf none added s
                        have hmxf : s.pd.maybe_xhtml = false := by
                          cases hb : s.pd.maybe_xhtml with
                          | false => rfl
                          | true => rw [hb] at hmxb; exact absurd rfl hmxb
                        cases hT : (caTail node xp rp h
                            ((bytes "xmlns_" ++ h.aname.drop 6).take 48)
                            .buf none added s).1 with
                        | failed a1 =>
                            dsimp only
                            rw [hT] at tV tA tBuf
                            simp only [caOutAttr] at tV tA
                            refine Hfail a1 _ tS tV tA ?_
                            intro _ _
                            have := (tBuf hmxf rfl).1
                            simpa [caOutAttr] using this
                        | deferred a1 =>
                            dsimp only
                            rw [hT] at tBuf
                            have := (tBuf hmxf rfl).2
                            simp [isDeferredOut] at this
                        | emitted a1 ad =>
                            dsimp only
                            rw [hT] at tV tA tBuf
                            simp only [caOutAttr] at tV tA
                            refine Hnext a1 ad needs _ tS tV tA ?_
                            intro _ _
                            have := (tBuf hmxf rfl).1
                            simpa [caOutAttr] using this
                  · obtain ⟨hT1, hT2, hT3⟩ := Htail s none (ctxStable_refl s)
                    cases hT : (caTail node xp rp h h.aname .full none added s).1 with
                    | failed a1 => dsimp only; exact hT1 a1 hT
                    | deferred a1 => dsimp only; exact hT2 a1 hT added true
                    | emitted a1 ad => dsimp only; exact hT3 a1 ad hT ad needs
              · obtain ⟨hT1, hT2, hT3⟩ := Htail s none (ctxStable_refl s)
                cases hT : (caTail node xp rp h h.aname .full none added s).1 with
                | failed a1 => dsimp only; exact hT1 a1 hT
                | deferred a1 => dsimp only; exact hT2 a1 hT added true
                | emitted a1 ad => dsimp only; exact hT3 a1 ad hT ad needs

/-- C3 (amended): what conversion does to the source attribute records.
`create_attributes` (hence the conversion) preserves every attribute's
value, namespace classification and the attribute count; and when both
the strict-XHTML rules and name sanitization are disabled, the source
attribute list is returned entirely unchanged.  (As the counterexample
shows, with either flag on the name bytes and the original-name slot can
be rewritten in place.) -/
theorem create_attributes_source_effect (node : Nat) (attrs : List GAttr)
    (xp : Option Nat) (rp : Bool) (s : ConvSt) :
    (create_attributes node attrs xp rp s).1.2.1.map GAttr.aval = attrs.map GAttr.aval ∧
    (create_attributes node attrs xp rp s).1.2.1.map GAttr.ans = attrs.map GAttr.ans ∧
    (create_attributes node attrs xp rp s).1.2.1.length = attrs.length ∧
    (s.pd.maybe_xhtml = false → s.pd.sanitize_names = false →
      (create_attributes node attrs xp rp s).1.2.1 = attrs) := by
  obtain ⟨_, hV, hA, hL, hI⟩ := caLoop_spec node xp rp attrs 0 false s
  unfold create_attributes
  rcases hE : caLoop node xp rp attrs 0 false s with ⟨⟨ok, attrs1, needs, ad⟩, s1⟩
  rw [hE] at hV hA hL hI
  exact ⟨hV, hA, hL, hI⟩

/-- Witness for C3's amended theorem at a concrete input: with both flags
off, a concrete attribute list passes through `create_attributes`
untouched. -/
theorem create_attributes_source_effect_witness :
    (create_attributes 0 [fooBarAttr] none false flagsOffSt).1.2.1 = [fooBarAttr] :=
  (create_attributes_source_effect 0 [fooBarAttr] none false flagsOffSt).2.2.2 rfl rfl

/-- C3 (counterexample): the conversion does mutate the source tree.
Converting an element carrying `foo:bar="x"` under strict-XHTML rules
(`create_element`, invoked by `convert_gumbo_tree_to_libxml_tree` for
every Element/Template node) hands back the source attribute records with
the name rewritten in place to `foo_bar` and the original-name slot
clobbered with the `REPROCESS` sentinel — not the contents they held
before the call. -/
theorem create_element_mutates_source :
    (create_element none .pdoc 1 0 [] [fooBarAttr] 1 xhtmlOnlyOpts cexXhtmlSt).1.2 =
      [⟨ANS.anone, bytes "foo_bar", bytes "x", true⟩] ∧
    (create_element none .pdoc 1 0 [] [fooBarAttr] 1 xhtmlOnlyOpts cexXhtmlSt).1.2 ≠
      [fooBarAttr] := by
  constructor
  · rfl
  · intro h
    rw [show (create_element none .pdoc 1 0 [] [fooBarAttr] 1 xhtmlOnlyOpts cexXhtmlSt).1.2 =
        [⟨ANS.anone, bytes "foo_bar", bytes "x", true⟩] from rfl] at h
    exact absurd h (by decide)

theorem sameButProps_refl (a : XmlNode) : sameButProps a a :=
  ⟨rfl, rfl, rfl, rfl, rfl, rfl, rfl⟩

theorem sameButProps_trans {a b c : XmlNode} (h1 : sameButProps a b)
    (h2 : sameButProps b c) : sameButProps a c := by
  obtain ⟨x1, x2, x3, x4, x5, x6, x7⟩ := h1
  obtain ⟨y1, y2, y3, y4, y5, y6, y7⟩ := h2
  exact ⟨y1.trans x1, y2.trans x2, y3.trans x3, y4.trans x4,
    y5.trans x5, y6.trans x6, y7.trans x7⟩

theorem propsOnlyDiff_refl (node : Nat) (s : ConvSt) : propsOnlyDiff node s s :=
  ⟨rfl, rfl, rfl, rfl, rfl, rfl, rfl, rfl, rfl, fun _ _ => rfl,
   fun n h => ⟨n, h, sameButProps_refl n⟩⟩

theorem propsOnlyDiff_trans {node : Nat} {s t u : ConvSt}
    (h1 : propsOnlyDiff node s t) (h2 : propsOnlyDiff node t u) :
    propsOnlyDiff node s u := by
  obtain ⟨a1, a2, a3, a4, a5, a6, a7, a8, a9, a10, a11⟩ := h1
  obtain ⟨b1, b2, b3, b4, b5, b6, b7, b8, b9, b10, b11⟩ := h2
  refine ⟨b1.trans a1, b2.trans a2, b3.trans a3, b4.trans a4, b5.trans a5,
    b6.trans a6, b7.trans a7, b8.trans a8, b9.trans a9,
    fun i hi => (b10 i hi).trans (a10 i hi), ?_⟩
  intro n hn
  obtain ⟨m, hm, hsame⟩ := a11 n hn
  obtain ⟨q, hq, hsame2⟩ := b11 m hm
  exact ⟨q, hq, sameButProps_trans hsame hsame2⟩

theorem propsOnlyDiff_modifyProps (s : ConvSt) (node : Nat)
    (f : List XmlProp → List XmlProp) :
    propsOnlyDiff node s
      (modifyNode s node (fun n => { n with props := f n.props })) := by
  refine ⟨rfl, rfl, rfl, rfl, rfl, rfl, rfl, rfl, ?_, ?_, ?_⟩
  · simp [modifyNode, listModify_length]
  · intro i hi
    simp only [modifyNode]
    exact listModify_get_ne _ _ _ _ hi
  · intro n hn
    refine ⟨{ n with props := f n.props }, ?_, ?_⟩
    · simp only [modifyNode]
      rw [listModify_get_eq, hn]
      rfl
    · exact ⟨rfl, rfl, rfl, rfl, rfl, rfl, rfl⟩

theorem xmlDictLookup_nilOracle (name : List Nat) (len : Nat) (s : ConvSt)
    (h : s.oracle = []) :
    xmlDictLookup name len s = (some (name.take len), s) := by
  unfold xmlDictLookup
  rw [allocOk_empty s h]
  rfl

theorem getNode_lt (s : ConvSt) (i : Nat) (h : i < s.doc.nodes.length) :
    ∃ n, getNode s i = some n := by
  unfold getNode
  exact ⟨s.doc.nodes.get ⟨i, h⟩, List.get?_eq_get h⟩

theorem xmlNewNsPropEatName_nilOracle (node : Nat) (ns : Option Nat)
    (name value : List Nat) (s : ConvSt) (ho : s.oracle = [])
    (hn : node < s.doc.nodes.length) :
    (xmlNewNsPropEatName node ns name value s).1 = some () ∧
    propsOnlyDiff node s (xmlNewNsPropEatName node ns name value s).2 := by
  obtain ⟨n, hget⟩ := getNode_lt s node hn
  unfold xmlNewNsPropEatName
  rw [hget, allocOk_empty s ho]
  exact ⟨rfl, propsOnlyDiff_modifyProps s node (fun ps => ps ++ [XmlProp.mk ns name value])⟩

theorem xmlSetNsProp_nilOracle (node : Nat) (ns : Option Nat)
    (name value : List Nat) (s : ConvSt) (ho : s.oracle = [])
    (hn : node < s.doc.nodes.length) :
    propsOnlyDiff node s (xmlSetNsProp node ns name value s).2 := by
  obtain ⟨n, hget⟩ := getNode_lt s node hn
  unfold xmlSetNsProp
  rw [hget]
  dsimp only
  cases hI : n.props.findIdx? (fun p => p.pns == ns && p.pname == name) with
  | some j =>
      dsimp only
      exact propsOnlyDiff_modifyProps s node
        (fun ps => listModify ps j (fun p => { p with pval := value }))
  | none =>
      dsimp only
      rw [allocOk_empty s ho]
      exact propsOnlyDiff_modifyProps s node (fun ps => ps ++ [XmlProp.mk ns name value])

theorem strchrColon_eq_none {l : List Nat} (h : ¬ 58 ∈ l) : strchrColon l = none := by
  unfold strchrColon
  rw [List.findIdx?_eq_none_iff]
  intro x hx
  simp only [beq_eq_false_iff_ne]
  intro he
  subst he
  exact h hx

theorem mem_of_startsWith {p l : List Nat} {b : Nat} (hb : b ∈ p)
    (h : startsWithBytes p l = true) : b ∈ l := by
  unfold startsWithBytes at h
  exact (List.isPrefixOf_iff_prefix.mp h).subset hb

theorem caEmit_ordinary (node : Nat) (a : GAttr) (cur : List Nat)
    (al : NameAlias) (ns : Option Nat) (added : Nat) (s : ConvSt)
    (ho : s.oracle = []) (hn : node < s.doc.nodes.length) :
    (caEmit node a cur al ns added s).1.1 = true ∧
    propsOnlyDiff node s (caEmit node a cur al ns added s).2 := by
  unfold caEmit
  dsimp only
  by_cases hs : s.pd.sanitize_names = true
  · simp only [hs, if_true]
    generalize (sanitize_name cur).1 = sc
    rw [xmlDictLookup_nilOracle sc sc.length s ho]
    dsimp only
    split
    · split
      · exact ⟨rfl, propsOnlyDiff_refl node s⟩
      · have hp := xmlSetNsProp_nilOracle node none (sc.take sc.length) a.aval s ho hn
        rcases hB : xmlSetNsProp node none (sc.take sc.length) a.aval s with ⟨r, s2⟩
        rw [hB] at hp
        exact ⟨rfl, hp⟩
    · obtain ⟨hr, hp⟩ := xmlNewNsPropEatName_nilOracle node ns (sc.take sc.length) a.aval s ho hn
      rw [hr]
      dsimp only
      exact ⟨rfl, hp⟩
  · simp only [if_neg hs]
    rw [xmlDictLookup_nilOracle cur cur.length s ho]
    dsimp only
    split
    · split
      · exact ⟨rfl, propsOnlyDiff_refl node s⟩
      · have hp := xmlSetNsProp_nilOracle node none (cur.take cur.length) a.aval s ho hn
        rcases hB : xmlSetNsProp node none (cur.take cur.length) a.aval s with ⟨r, s2⟩
        rw [hB] at hp
        exact ⟨rfl, hp⟩
    · obtain ⟨hr, hp⟩ := xmlNewNsPropEatName_nilOracle node ns (cur.take cur.length) a.aval s ho hn
      rw [hr]
      dsimp only
      exact ⟨rfl, hp⟩

theorem caTailEmit_ordinary (node : Nat) (a : GAttr) (added : Nat)
    (cur : List Nat) (al : NameAlias) (ns : Option Nat) (s : ConvSt)
    (ho : s.oracle = []) (hn : node < s.doc.nodes.length) :
    (∃ a1 ad, (caTailEmit node a added cur al ns s).1 = CaOut.emitted a1 ad) ∧
    propsOnlyDiff node s (caTailEmit node a added cur al ns s).2 := by
  obtain ⟨hok, hp⟩ := caEmit_ordinary node a cur al ns added s ho hn
  unfold caTailEmit
  rcases hE : caEmit node a cur al ns added s with ⟨⟨ok, a1, ad⟩, s1⟩
  rw [hE] at hok hp
  dsimp only at hok ⊢
  subst hok
  exact ⟨⟨a1, ad, rfl⟩, hp⟩

theorem caTail_ordinary (node : Nat) (xp : Option Nat) (rp : Bool)
    (a : GAttr) (cur : List Nat) (al : NameAlias) (ns : Option Nat)
    (added : Nat) (s : ConvSt) (ho : s.oracle = [])
    (hn : node < s.doc.nodes.length) (hcol : ¬ 58 ∈ cur) :
    (∃ a1 ad, (caTail node xp rp a cur al ns added s).1 = CaOut.emitted a1 ad) ∧
    propsOnlyDiff node s (caTail node xp rp a cur al ns added s).2 := by
  unfold caTail
  split
  · rw [strchrColon_eq_none hcol]
    exact caTailEmit_ordinary node a added cur al ns s ho hn
  · exact caTailEmit_ordinary node a added cur al ns s ho hn

theorem caLoop_ordinary (node : Nat) (xp : Option Nat) (rp : Bool)
    (attrs : List GAttr) :
    ∀ (added : Nat) (needs : Bool) (s : ConvSt),
    s.oracle = [] → node < s.doc.nodes.length →
    (∀ a ∈ attrs, a.ans = ANS.anone ∧ ¬ 58 ∈ a.aname ∧
      startsWithBytes xmlnsBytes a.aname = false) →
    (caLoop node xp rp attrs added needs s).1.1 = true ∧
    (caLoop node xp rp attrs added needs s).1.2.2.1 = needs ∧
    propsOnlyDiff node s (caLoop node xp rp attrs added needs s).2 := by
  induction attrs with
  | nil =>
      intro added needs s ho hn hattrs
      exact ⟨rfl, rfl, propsOnlyDiff_refl node s⟩
  | cons h t ih =>
      intro added needs s ho hn hattrs
      obtain ⟨hcls, hcol, hxmlns⟩ := hattrs h (List.mem_cons_self h t)
      have htl : ∀ a ∈ t, a.ans = ANS.anone ∧ ¬ 58 ∈ a.aname ∧
          startsWithBytes xmlnsBytes a.aname = false :=
        fun a haa => hattrs a (List.mem_cons_of_mem h haa)
      have hxl : startsWithBytes (bytes "xml:lang") h.aname = false := by
        cases hq : startsWithBytes (bytes "xml:lang") h.aname with
        | false => rfl
        | true =>
            exact absurd (mem_of_startsWith (by decide) hq) hcol
      unfold caLoop
      dsimp only
      split
      · obtain ⟨ihO, ihN, ihP⟩ := ih added needs s ho hn htl
        exact ⟨ihO, ihN, ihP⟩
      · rw [hcls]
        dsimp only
        simp only [hxl, Bool.and_false, Bool.false_eq_true, if_false, hxmlns]
        obtain ⟨⟨a1, ad, hout⟩, hp⟩ :=
          caTail_ordinary node xp rp h h.aname .full none added s ho hn hcol
        rw [hout]
        dsimp only
        have ho2 : (caTail node xp rp h h.aname .full none added s).2.oracle = [] := by
          rw [hp.2.1, ho]
        have hn2 : node < (caTail node xp rp h h.aname .full none added s).2.doc.nodes.length := by
          rw [hp.2.2.2.2.2.2.2.2.1]
          exact hn
        obtain ⟨ihO, ihN, ihP⟩ := ih ad needs _ ho2 hn2 htl
        exact ⟨ihO, ihN, propsOnlyDiff_trans hp ihP⟩

theorem lookup_standard_tag_nilOracle (tag : Nat) (s : ConvSt)
    (ho : s.oracle = []) :
    ∃ nm, (lookup_standard_tag tag s).1 = some nm ∧
      (lookup_standard_tag tag s).2.doc = s.doc ∧
      (lookup_standard_tag tag s).2.oracle = [] := by
  unfold lookup_standard_tag
  cases hc : s.pd.standard_tags.lookup tag with
  | some nm => exact ⟨nm, rfl, rfl, ho⟩
  | none =>
      dsimp only
      rw [xmlDictLookup_nilOracle _ _ s ho]
      dsimp only
      exact ⟨_, rfl, rfl, ho⟩

theorem xmlNewDocNodeEatName_nilOracle (name : List Nat) (s : ConvSt)
    (ho : s.oracle = []) :
    xmlNewDocNodeEatName name s =
      (some s.doc.nodes.length,
       { s with doc := { s.doc with nodes := s.doc.nodes ++ [mkXmlNode .xelem name] } }) := by
  unfold xmlNewDocNodeEatName
  rw [allocOk_empty s ho]
  rfl

theorem xmlNewNs_fresh (node : Nat) (href : List Nat) (pfx : Option (List Nat))
    (s : ConvSt) (n : XmlNode) (ho : s.oracle = [])
    (h : getNode s node = some n) (hnsd : n.nsDef = []) :
    xmlNewNs node href pfx s =
      (some s.doc.nss.length,
       modifyNode { s with doc := { s.doc with nss := s.doc.nss ++ [⟨pfx, href⟩] } }
         node (fun m => { m with nsDef := m.nsDef ++ [s.doc.nss.length] })) := by
  unfold xmlNewNs
  rw [h]
  dsimp only
  have hdup : nsDefHasPfx s n.nsDef pfx = false := by
    rw [hnsd]
    rfl
  rw [hdup]
  rw [allocOk_empty s ho]
  rfl

theorem listModify_append_length (l : List α) (x : α) (f : α → α) :
    listModify (l ++ [x]) l.length f = l ++ [f x] := by
  induction l with
  | nil => rfl
  | cons y ys ih => simp [listModify, ih]

theorem create_attributes_ordinary (node : Nat) (attrs : List GAttr)
    (xp : Option Nat) (s : ConvSt) (ho : s.oracle = [])
    (hn : node < s.doc.nodes.length)
    (hattrs : ∀ a ∈ attrs, a.ans = ANS.anone ∧ ¬ 58 ∈ a.aname ∧
      startsWithBytes xmlnsBytes a.aname = false) :
    (create_attributes node attrs xp false s).1.1 = true ∧
    (create_attributes node attrs xp false s).1.2.2 = false ∧
    propsOnlyDiff node s (create_attributes node attrs xp false s).2 := by
  obtain ⟨hok, hnd, hp⟩ := caLoop_ordinary node xp false attrs 0 false s ho hn hattrs
  unfold create_attributes
  rcases hE : caLoop node xp false attrs 0 false s with ⟨⟨ok, attrs1, needs, ad⟩, s1⟩
  rw [hE] at hok hnd hp
  exact ⟨hok, hnd, hp⟩

theorem setNs_concat (s : ConvSt) (pre : List XmlNode) (N : XmlNode) (v : Option Nat)
    (hnodes : s.doc.nodes = pre ++ [N]) :
    (xmlSetNs pre.length v s).doc.nodes = pre ++ [{ N with ns := v }] ∧
    (xmlSetNs pre.length v s).doc.nss = s.doc.nss ∧
    (xmlSetNs pre.length v s).oracle = s.oracle := by
  simp only [xmlSetNs, modifyNode]
  rw [hnodes, listModify_append_length]
  exact ⟨rfl, trivial, trivial⟩

theorem newNs_setNs_concat (s : ConvSt) (pre : List XmlNode) (N : XmlNode) (href : List Nat)
    (ho : s.oracle = []) (hnodes : s.doc.nodes = pre ++ [N]) (hnsd : N.nsDef = []) :
    (xmlNewNs pre.length href none s).1 = some s.doc.nss.length ∧
    (xmlSetNs pre.length (some s.doc.nss.length)
        (xmlNewNs pre.length href none s).2).doc.nodes
      = pre ++ [{ N with nsDef := [s.doc.nss.length], ns := some s.doc.nss.length }] ∧
    (xmlSetNs pre.length (some s.doc.nss.length)
        (xmlNewNs pre.length href none s).2).doc.nss
      = s.doc.nss ++ [XmlNs.mk none href] ∧
    (xmlSetNs pre.length (some s.doc.nss.length)
        (xmlNewNs pre.length href none s).2).oracle = [] := by
  have hget : getNode s pre.length = some N := by
    unfold getNode
    rw [hnodes]
    exact List.get?_concat_length _ _
  rw [xmlNewNs_fresh pre.length href none s N ho hget hnsd]
  simp only [xmlSetNs, modifyNode]
  rw [hnodes]
  rw [listModify_append_length, listModify_append_length]
  refine ⟨trivial, ?_, trivial, ho⟩
  rw [hnsd]
  rfl

theorem create_element_rest_ns (xml_parent : Option Nat) (pinfo : PInfo)
    (tagNs : Nat) (attrs : List GAttr) (eline : Nat) (opts : Options)
    (nm : List Nat) (s : ConvSt)
    (hns : opts.namespace_elements = true)
    (hline : opts.line_number_attr = none)
    (ho : s.oracle = [])
    (hxp : ∀ p, xml_parent = some p → p < s.doc.nodes.length)
    (hattrs : ∀ a ∈ attrs, a.ans = ANS.anone ∧ ¬ 58 ∈ a.aname ∧
      startsWithBytes xmlnsBytes a.aname = false) :
    ∃ m,
      (create_element_rest xml_parent pinfo tagNs attrs eline opts (some nm) none s).1.1
        = some s.doc.nodes.length ∧
      (create_element_rest xml_parent pinfo tagNs attrs eline opts
          (some nm) none s).2.doc.nodes.get? s.doc.nodes.length = some m ∧
      ((match pinfo with | PInfo.pdoc => true | PInfo.pelem pns => tagNs != pns) = true →
        m.ns = some s.doc.nss.length ∧ m.nsDef = [s.doc.nss.length] ∧
        (create_element_rest xml_parent pinfo tagNs attrs eline opts
            (some nm) none s).2.doc.nss = s.doc.nss ++ [⟨none, kLegalXmlns tagNs⟩]) ∧
      ((match pinfo with | PInfo.pdoc => true | PInfo.pelem pns => tagNs != pns) = false →
        m.ns = xml_parent.bind (fun p => (s.doc.nodes.get? p).bind XmlNode.ns) ∧
        m.nsDef = [] ∧
        (create_element_rest xml_parent pinfo tagNs attrs eline opts
            (some nm) none s).2.doc.nss = s.doc.nss) := by
  have HT : ∀ (sC : ConvSt) (N1 : XmlNode), sC.oracle = [] →
      sC.doc.nodes = s.doc.nodes ++ [N1] →
      (create_attributes s.doc.nodes.length attrs xml_parent false sC).1.1 = true ∧
      (create_attributes s.doc.nodes.length attrs xml_parent false sC).1.2.2 = false ∧
      (create_attributes s.doc.nodes.length attrs xml_parent false sC).2.doc.nss = sC.doc.nss ∧
      ∃ m, (create_attributes s.doc.nodes.length attrs xml_parent
          false sC).2.doc.nodes.get? s.doc.nodes.length = some m ∧ sameButProps N1 m := by
    intro sC N1 hCo hCn
    have hlen : s.doc.nodes.length < sC.doc.nodes.length := by
      rw [hCn]
      simp
    obtain ⟨hok, hnd, hprop⟩ :=
      create_attributes_ordinary s.doc.nodes.length attrs xml_parent sC hCo hlen hattrs
    have hget : sC.doc.nodes.get? s.doc.nodes.length = some N1 := by
      rw [hCn]
      exact List.get?_concat_length _ _
    obtain ⟨m, hm, hsame⟩ := hprop.2.2.2.2.2.2.2.2.2.2 N1 hget
    exact ⟨hok, hnd, hprop.2.2.2.1, m, hm, hsame⟩
  unfold create_element_rest
  dsimp only
  rw [xmlNewDocNodeEatName_nilOracle nm s ho]
  dsimp only
  rw [hline]
  dsimp only
  have hmod : modifyNode
      { s with doc := { s.doc with nodes := s.doc.nodes ++ [mkXmlNode XKind.xelem nm] } }
      s.doc.nodes.length (fun m => { m with line := eline }) =
      { s with doc := { s.doc with
          nodes := s.doc.nodes ++ [XmlNode.mk XKind.xelem nm none [] [] none [] eline] } } := by
    simp only [modifyNode]
    rw [listModify_append_length]
    rfl
  rw [hmod]
  simp only [Bool.not_true, Bool.false_eq_true, if_false]
  rw [if_pos hns]
  cases pinfo with
  | pdoc =>
      dsimp only
      rw [if_pos rfl]
      obtain ⟨hcc1, hcc2, hcc3, hcc4⟩ := newNs_setNs_concat
        { s with doc := { s.doc with nodes := s.doc.nodes ++ [XmlNode.mk XKind.xelem nm none [] [] none [] eline] } }
        s.doc.nodes (XmlNode.mk XKind.xelem nm none [] [] none [] eline) (kLegalXmlns tagNs) ho rfl rfl
      dsimp only at hcc1 hcc2 hcc3 hcc4
      rw [hcc1]
      dsimp only
      obtain ⟨hok, hnd, hnss, m, hm, hsame⟩ := HT _ _ hcc4 hcc2
      rw [hok]
      simp only [Bool.not_true, Bool.false_eq_true, if_false]
      rw [hnd]
      simp only [Bool.false_eq_true, if_false]
      refine ⟨m, rfl, hm, fun _ => ⟨?_, ?_, ?_⟩, fun hf => Bool.noConfusion hf⟩
      · exact hsame.2.2.2.2.2.1
      · exact hsame.2.2.2.2.1
      · exact hnss.trans hcc3
  | pelem pns =>
      dsimp only
      by_cases hne : (tagNs != pns) = true
      · rw [if_pos hne]
        obtain ⟨hcc1, hcc2, hcc3, hcc4⟩ := newNs_setNs_concat
          { s with doc := { s.doc with nodes := s.doc.nodes ++ [XmlNode.mk XKind.xelem nm none [] [] none [] eline] } }
          s.doc.nodes (XmlNode.mk XKind.xelem nm none [] [] none [] eline) (kLegalXmlns tagNs) ho rfl rfl
        dsimp only at hcc1 hcc2 hcc3 hcc4
        rw [hcc1]
        dsimp only
        obtain ⟨hok, hnd, hnss, m, hm, hsame⟩ := HT _ _ hcc4 hcc2
        rw [hok]
        simp only [Bool.not_true, Bool.false_eq_true, if_false]
        rw [hnd]
        simp only [Bool.false_eq_true, if_false]
        refine ⟨m, rfl, hm, fun _ => ⟨?_, ?_, ?_⟩, fun hf => Bool.noConfusion (hne.symm.trans hf)⟩
        · exact hsame.2.2.2.2.2.1
        · exact hsame.2.2.2.2.1
        · exact hnss.trans hcc3
      · rw [if_neg hne]
        dsimp only
        have hinh : (xml_parent.bind (fun p =>
            (getNode { s with doc := { s.doc with nodes := s.doc.nodes ++ [XmlNode.mk XKind.xelem nm none [] [] none [] eline] } } p).bind (fun n => n.ns))) = xml_parent.bind (fun p => (s.doc.nodes.get? p).bind (fun n => n.ns)) := by
          cases hxpc : xml_parent with
          | none => rfl
          | some p =>
              dsimp only [Option.bind]
              have hgp : getNode { s with doc := { s.doc with nodes := s.doc.nodes ++ [XmlNode.mk XKind.xelem nm none [] [] none [] eline] } } p = s.doc.nodes.get? p := by
                unfold getNode
                dsimp only
                exact List.get?_append (hxp p hxpc)
              rw [hgp]
        rw [hinh]
        obtain ⟨hs1, hs2, hs3⟩ := setNs_concat
          { s with doc := { s.doc with nodes := s.doc.nodes ++ [XmlNode.mk XKind.xelem nm none [] [] none [] eline] } }
          s.doc.nodes (XmlNode.mk XKind.xelem nm none [] [] none [] eline) (xml_parent.bind (fun p => (s.doc.nodes.get? p).bind (fun n => n.ns))) rfl
        dsimp only at hs1 hs2 hs3
        obtain ⟨hok, hnd, hnss, m, hm, hsame⟩ := HT _ _ (hs3.trans ho) hs1
        rw [hok]
        simp only [Bool.not_true, Bool.false_eq_true, if_false]
        rw [hnd]
        simp only [Bool.false_eq_true, if_false]
        refine ⟨m, rfl, hm, fun ht => absurd ht hne, fun _ => ⟨?_, ?_, ?_⟩⟩
        · exact hsame.2.2.2.2.2.1
        · exact hsame.2.2.2.2.1
        · exact hnss.trans hs2

/-- C6 (amended): for a standard-tag element (no explicit tag prefix, so the
line 313-318 prefix fixup does not apply), with namespacing on, no
line-number attribute, ordinary attributes and no allocation failures,
`create_element` gives the element a fresh namespace declaration exactly
when the parent is the document or the tag namespaces differ, and
otherwise assigns the parent's existing namespace binding without
declaring a new one. -/
theorem create_element_namespace_rule
    (xml_parent : Option Nat) (pinfo : PInfo) (tag tagNs : Nat)
    (origTag : List Nat) (attrs : List GAttr) (eline : Nat)
    (opts : Options) (s : ConvSt)
    (hns : opts.namespace_elements = true)
    (hline : opts.line_number_attr = none)
    (htag : tag < GUMBO_TAG_UNKNOWN)
    (ho : s.oracle = [])
    (hxp : ∀ p, xml_parent = some p → p < s.doc.nodes.length)
    (hattrs : ∀ a ∈ attrs, a.ans = ANS.anone ∧ ¬ 58 ∈ a.aname ∧
      startsWithBytes xmlnsBytes a.aname = false) :
    ∃ m,
      (create_element xml_parent pinfo tag tagNs origTag attrs eline opts s).1.1
        = some s.doc.nodes.length ∧
      (create_element xml_parent pinfo tag tagNs origTag attrs eline opts
          s).2.doc.nodes.get? s.doc.nodes.length = some m ∧
      ((match pinfo with | PInfo.pdoc => true | PInfo.pelem pns => tagNs != pns) = true →
        m.ns = some s.doc.nss.length ∧ m.nsDef = [s.doc.nss.length] ∧
        (create_element xml_parent pinfo tag tagNs origTag attrs eline opts
            s).2.doc.nss = s.doc.nss ++ [XmlNs.mk none (kLegalXmlns tagNs)]) ∧
      ((match pinfo with | PInfo.pdoc => true | PInfo.pelem pns => tagNs != pns) = false →
        m.ns = xml_parent.bind (fun p => (s.doc.nodes.get? p).bind (fun n => n.ns)) ∧
        m.nsDef = [] ∧
        (create_element xml_parent pinfo tag tagNs origTag attrs eline opts
            s).2.doc.nss = s.doc.nss) := by
  unfold create_element
  have hlt : ¬ GUMBO_TAG_UNKNOWN ≤ tag := by omega
  rw [if_neg hlt]
  obtain ⟨nm, hnm, hdoc, ho1⟩ := lookup_standard_tag_nilOracle tag s ho
  rcases hL : lookup_standard_tag tag s with ⟨r1, s1⟩
  rw [hL] at hnm hdoc ho1
  dsimp only at hnm hdoc ho1
  subst hnm
  have hxp1 : ∀ p, xml_parent = some p → p < s1.doc.nodes.length := by
    intro p hp
    rw [hdoc]
    exact hxp p hp
  by_cases h1 : (tagNs == 1) = true
  · rw [if_pos h1]
    dsimp only [gumbo_normalize_svg_tagname]
    obtain ⟨m, hA, hB, hC, hD⟩ := create_element_rest_ns xml_parent pinfo tagNs
      attrs eline opts nm s1 hns hline ho1 hxp1 hattrs
    rw [hdoc] at hA hB hC hD
    exact ⟨m, hA, hB, hC, hD⟩
  · rw [if_neg h1]
    dsimp only
    obtain ⟨m, hA, hB, hC, hD⟩ := create_element_rest_ns xml_parent pinfo tagNs
      attrs eline opts nm s1 hns hline ho1 hxp1 hattrs
    rw [hdoc] at hA hB hC hD
    exact ⟨m, hA, hB, hC, hD⟩

/-- C6 witness: the rule applied to a root-level element under the document
node. -/
theorem create_element_namespace_rule_witness :
    ∃ m, (create_element none PInfo.pdoc 1 0 [] [] 1 ceNsOpts ceNsSt).1.1
        = some ceNsSt.doc.nodes.length ∧
      (create_element none PInfo.pdoc 1 0 [] [] 1 ceNsOpts
          ceNsSt).2.doc.nodes.get? ceNsSt.doc.nodes.length = some m ∧
      (true = true →
        m.ns = some ceNsSt.doc.nss.length ∧ m.nsDef = [ceNsSt.doc.nss.length] ∧
        (create_element none PInfo.pdoc 1 0 [] [] 1 ceNsOpts ceNsSt).2.doc.nss
          = ceNsSt.doc.nss ++ [XmlNs.mk none (kLegalXmlns 0)]) ∧
      (true = false →
        m.ns = (none : Option Nat).bind
          (fun p => (ceNsSt.doc.nodes.get? p).bind (fun n => n.ns)) ∧
        m.nsDef = [] ∧
        (create_element none PInfo.pdoc 1 0 [] [] 1 ceNsOpts ceNsSt).2.doc.nss
          = ceNsSt.doc.nss) :=
  create_element_namespace_rule none PInfo.pdoc 1 0 [] [] 1 ceNsOpts ceNsSt
    rfl rfl (by decide) rfl (fun p hp => Option.noConfusion hp)
    (fun a ha => absurd ha (List.not_mem_nil a))

/-- C6 counterexample: in `out6` both elements carry tag namespace 0 (HTML)
and the child's parent is the root element, not the document — yet the
converted child (store index 1) receives its own fresh namespace
declaration (`nsDef = [1]`, `ns = some 1`) instead of the parent's binding
(`some 0`): the deferred tag-prefix fixup at as-libxml.c lines 313-318
overrides the inheritance rule whenever the original tag's prefix resolves
to a declaration in scope. -/
theorem convert_new_ns_despite_equal_parent_tag :
    ((convert_gumbo_tree_to_libxml_tree out6 opts6 []).1.1.bind
        (fun d => d.nodes.get? 1)).map (fun n => (n.parent, n.nsDef, n.ns))
      = some (some 0, [1], some 1) ∧
    ((convert_gumbo_tree_to_libxml_tree out6 opts6 []).1.1.bind
        (fun d => d.nodes.get? 0)).bind (fun n => n.ns) = some 0 ∧
    ((convert_gumbo_tree_to_libxml_tree out6 opts6 []).1.1.bind
        (fun d => d.nodes.get? 1)).bind (fun n => n.ns) ≠
      ((convert_gumbo_tree_to_libxml_tree out6 opts6 []).1.1.bind
        (fun d => d.nodes.get? 0)).bind (fun n => n.ns) := by
  refine ⟨rfl, rfl, ?_⟩
  decide

theorem langStep_bare_skip {a : GAttr} {ad : Nat} {v : Option (List Nat)}
    (hb : isBareLang a = true) (had2 : ad = 2) : langStep ad v a = (ad, v) := by
  unfold langStep
  rw [if_pos hb, if_pos had2]

theorem langStep_bare_set {a : GAttr} {ad : Nat} {v : Option (List Nat)}
    (hb : isBareLang a = true) (had2 : ¬ ad = 2) :
    langStep ad v a = (2, some a.aval) := by
  unfold langStep
  rw [if_pos hb, if_neg had2]

theorem langStep_alias_set {a : GAttr} {ad : Nat} {v : Option (List Nat)}
    (hb : isBareLang a = false) (had0 : ad = 0) :
    langStep ad v a = (1, some a.aval) := by
  unfold langStep
  rw [if_neg (by rw [hb]; exact fun h => Bool.noConfusion h), if_pos had0]

theorem langStep_alias_skip {a : GAttr} {ad : Nat} {v : Option (List Nat)}
    (hb : isBareLang a = false) (had0 : ¬ ad = 0) :
    langStep ad v a = (ad, v) := by
  unfold langStep
  rw [if_neg (by rw [hb]; exact fun h => Bool.noConfusion h), if_neg had0]

theorem langFold_value (attrs : List GAttr) : ∀ (ad : Nat) (v : Option (List Nat)),
    (∀ a ∈ attrs, isAliasLang a = true ∨ isBareLang a = true) →
    (ad = 0 → v = none) →
    (langFold attrs ad v).2 =
      (match attrs.find? isBareLang with
       | some b => if ad = 2 then v else some b.aval
       | none => if ad = 0 then (attrs.find? isAliasLang).map GAttr.aval else v) := by
  induction attrs with
  | nil =>
      intro ad v _ h0
      by_cases had : ad = 0
      · rw [List.find?_nil]
        dsimp only [langFold]
        rw [if_pos had, h0 had]
        rfl
      · rw [List.find?_nil]
        dsimp only [langFold]
        rw [if_neg had]
  | cons a rest ih =>
      intro ad v hattrs h0
      have hrest : ∀ b ∈ rest, isAliasLang b = true ∨ isBareLang b = true :=
        fun b hb => hattrs b (List.mem_cons_of_mem a hb)
      by_cases hb : isBareLang a = true
      · rw [List.find?_cons_of_pos _ hb]
        dsimp only [langFold]
        by_cases had2 : ad = 2
        · rw [langStep_bare_skip hb had2]
          dsimp only
          rw [ih ad v hrest h0, if_pos had2]
          cases hfb : rest.find? isBareLang with
          | some b =>
              dsimp only
              rw [if_pos had2]
          | none =>
              dsimp only
              rw [if_neg (by omega)]
        · rw [langStep_bare_set hb had2]
          dsimp only
          rw [ih 2 (some a.aval) hrest (fun h => absurd h (by decide)), if_neg had2]
          cases hfb : rest.find? isBareLang with
          | some b =>
              dsimp only
              rw [if_pos rfl]
          | none =>
              dsimp only
              rw [if_neg (by decide)]
      · have ha : isAliasLang a = true := by
          rcases hattrs a (List.mem_cons_self a rest) with h | h
          · exact h
          · exact absurd h hb
        have hbf : isBareLang a = false := by
          cases hq : isBareLang a
          · rfl
          · exact absurd hq hb
        rw [List.find?_cons_of_neg _ (by rw [hbf]; exact fun h => Bool.noConfusion h)]
        dsimp only [langFold]
        by_cases had0 : ad = 0
        · rw [langStep_alias_set hbf had0]
          dsimp only
          rw [ih 1 (some a.aval) hrest (fun h => absurd h (by decide))]
          cases hfb : rest.find? isBareLang with
          | some b =>
              dsimp only
              rw [if_neg (show ¬ (1:Nat) = 2 by decide), if_neg (show ¬ ad = 2 by omega)]
          | none =>
              dsimp only
              rw [if_pos had0, if_neg (by decide), List.find?_cons_of_pos _ ha]
              rfl
        · rw [langStep_alias_skip hbf had0]
          dsimp only
          rw [ih ad v hrest h0]
          cases hfb : rest.find? isBareLang with
          | some b => dsimp only
          | none =>
              dsimp only
              rw [if_neg had0, if_neg had0]

theorem findIdx?_append_single (p : XmlProp → Bool) (l : List XmlProp) (x : XmlProp)
    (h : ∀ y ∈ l, p y = false) (hx : p x = true) :
    (l ++ [x]).findIdx? p = some l.length := by
  induction l with
  | nil => simp [List.findIdx?_cons, hx]
  | cons y ys ih =>
      have hy : p y = false := h y (List.mem_cons_self y ys)
      have hys : ∀ z ∈ ys, p z = false := fun z hz => h z (List.mem_cons_of_mem y hz)
      simp [List.findIdx?_cons, hy, ih hys]

theorem findIdx?_none_of_all (p : XmlProp → Bool) (l : List XmlProp)
    (h : ∀ y ∈ l, p y = false) : l.findIdx? p = none := by
  rw [List.findIdx?_eq_none_iff]
  intro x hx
  rw [h x hx]

theorem ensure_xml_ns_nilOracle (i : Nat) (s : ConvSt) (ho : s.oracle = []) :
    ∃ k, (ensure_xml_ns (some i) s).1 = some k ∧
      (ensure_xml_ns (some i) s).2.doc.nodes = s.doc.nodes ∧
      (ensure_xml_ns (some i) s).2.oracle = [] ∧
      (ensure_xml_ns (some i) s).2.pd.maybe_xhtml = s.pd.maybe_xhtml ∧
      (ensure_xml_ns (some i) s).2.pd.sanitize_names = s.pd.sanitize_names ∧
      (ensure_xml_ns (some i) s).2.pd.lang_attribute = s.pd.lang_attribute := by
  unfold ensure_xml_ns
  cases hx : s.pd.xml with
  | some k => exact ⟨k, rfl, rfl, ho, rfl, rfl, rfl⟩
  | none =>
      dsimp only
      cases hr : s.pd.root with
      | some r =>
          dsimp only
          unfold xmlSearchNs
          dsimp only
          rw [if_pos (rfl : xmlBytes = xmlBytes)]
          cases hOld : s.doc.oldNs with
          | some k =>
              dsimp only
              exact ⟨k, rfl, rfl, ho, rfl, rfl, rfl⟩
          | none =>
              dsimp only
              rw [allocOk_empty s ho]
              dsimp only
              exact ⟨s.doc.nss.length, rfl, rfl, ho, rfl, rfl, rfl⟩
      | none =>
          dsimp only
          unfold xmlSearchNs
          dsimp only
          rw [if_pos (rfl : xmlBytes = xmlBytes)]
          cases hOld : s.doc.oldNs with
          | some k =>
              dsimp only
              exact ⟨k, rfl, rfl, ho, rfl, rfl, rfl⟩
          | none =>
              dsimp only
              rw [allocOk_empty s ho]
              dsimp only
              exact ⟨s.doc.nss.length, rfl, rfl, ho, rfl, rfl, rfl⟩

theorem xmlNewNsPropEatName_append (node : Nat) (ns : Option Nat)
    (name value : List Nat) (s : ConvSt) (ho : s.oracle = [])
    (n : XmlNode) (hget : getNode s node = some n) :
    (xmlNewNsPropEatName node ns name value s).1 = some () ∧
    getNode (xmlNewNsPropEatName node ns name value s).2 node
      = some { n with props := n.props ++ [XmlProp.mk ns name value] } ∧
    (xmlNewNsPropEatName node ns name value s).2.oracle = [] ∧
    (xmlNewNsPropEatName node ns name value s).2.pd = s.pd := by
  unfold xmlNewNsPropEatName
  rw [hget, allocOk_empty s ho]
  dsimp only
  rw [if_pos (rfl : (true : Bool) = true)]
  refine ⟨rfl, ?_, ho, rfl⟩
  unfold getNode modifyNode
  dsimp only
  rw [listModify_get_eq]
  unfold getNode at hget
  rw [hget]
  rfl

theorem xmlSetNsProp_lang (node : Nat) (value : List Nat) (s : ConvSt)
    (ho : s.oracle = []) (n : XmlNode) (hget : getNode s node = some n)
    (init : List XmlProp) (vOpt : Option (List Nat))
    (hp : n.props = init ++ vOpt.toList.map langProp)
    (hinit : ∀ pr ∈ init, isLangProp pr = false) :
    getNode (xmlSetNsProp node none langBytes value s).2 node
      = some { n with props := init ++ [langProp value] } ∧
    (xmlSetNsProp node none langBytes value s).2.oracle = [] ∧
    (xmlSetNsProp node none langBytes value s).2.pd = s.pd := by
  unfold xmlSetNsProp
  rw [hget]
  dsimp only
  cases vOpt with
  | none =>
      have hnone : n.props.findIdx? (fun p => p.pns == none && p.pname == langBytes) = none := by
        rw [hp]
        simp only [Option.toList, List.map_nil, List.append_nil]
        exact findIdx?_none_of_all _ init hinit
      rw [hnone]
      dsimp only
      rw [allocOk_empty s ho]
      rw [if_pos (rfl : (true : Bool) = true)]
      dsimp only
      refine ⟨?_, ho, rfl⟩
      unfold getNode modifyNode
      dsimp only
      rw [listModify_get_eq]
      unfold getNode at hget
      rw [hget]
      simp only [Option.map_some']
      rw [hp]
      simp only [Option.toList, List.map_nil, List.append_nil]
      rfl
  | some u =>
      have hsome : n.props.findIdx? (fun p => p.pns == none && p.pname == langBytes)
          = some init.length := by
        rw [hp]
        simp only [Option.toList, List.map_cons, List.map_nil]
        exact findIdx?_append_single _ init (langProp u) hinit (by rfl)
      rw [hsome]
      dsimp only
      refine ⟨?_, ho, rfl⟩
      unfold getNode modifyNode
      dsimp only
      rw [listModify_get_eq]
      unfold getNode at hget
      rw [hget]
      simp only [Option.map_some']
      rw [hp]
      simp only [Option.toList, List.map_cons, List.map_nil]
      rw [listModify_append_length]
      rfl

theorem caTail_bareLang (node : Nat) (xp : Option Nat) (h : GAttr) (added : Nat)
    (s : ConvSt) (ho : s.oracle = []) (hmx : s.pd.maybe_xhtml = true)
    (hsan : s.pd.sanitize_names = false) (hlang : s.pd.lang_attribute = langBytes)
    (haname : h.aname = langBytes)
    (n : XmlNode) (hget : getNode s node = some n)
    (init : List XmlProp) (vOpt : Option (List Nat))
    (hp : n.props = init ++ vOpt.toList.map langProp)
    (hinit : ∀ pr ∈ init, isLangProp pr = false) :
    ∃ a1 n',
      (caTail node xp false h h.aname .full none added s).1
        = CaOut.emitted a1 (if added = 2 then added else 2) ∧
      getNode (caTail node xp false h h.aname .full none added s).2 node = some n' ∧
      n'.props = init ++ ((if added = 2 then vOpt else some h.aval).toList.map langProp) ∧
      (caTail node xp false h h.aname .full none added s).2.oracle = [] ∧
      (caTail node xp false h h.aname .full none added s).2.pd = s.pd := by
  unfold caTail
  rw [haname, hmx, if_pos (rfl : (true : Bool) = true)]
  rw [show strchrColon langBytes = none from rfl]
  dsimp only
  unfold caTailEmit caEmit
  rw [hsan]
  rw [if_neg (show ¬ (false : Bool) = true from fun hq => Bool.noConfusion hq)]
  dsimp only
  rw [xmlDictLookup_nilOracle langBytes langBytes.length s ho]
  dsimp only
  rw [List.take_length]
  rw [hmx, hlang]
  rw [show (true && (langBytes == langBytes)) = true from by simp]
  rw [if_pos (rfl : (true : Bool) = true)]
  by_cases had2 : added = 2
  · rw [if_pos (show (added == 2) = true from by simp [had2])]
    dsimp only
    rw [if_pos (rfl : (true : Bool) = true)]
    refine ⟨aliasWrite h NameAlias.full langBytes, n, ?_, hget, ?_, ho, rfl⟩
    · rw [if_pos had2]
    · rw [if_pos had2]
      exact hp
  · rw [if_neg (show ¬ (added == 2) = true from by simp [had2])]
    obtain ⟨hg2, ho2, hpd2⟩ := xmlSetNsProp_lang node h.aval s ho n hget init vOpt hp hinit
    rcases hS : xmlSetNsProp node none langBytes h.aval s with ⟨r2, s2⟩
    rw [hS] at hg2 ho2 hpd2
    dsimp only
    rw [if_pos (rfl : (true : Bool) = true)]
    refine ⟨aliasWrite h NameAlias.full langBytes, _, ?_, hg2, ?_, ho2, hpd2⟩
    · rw [if_neg had2]
    · rw [if_neg had2]
      rfl

theorem caLoop_langOnly (node : Nat) (xp : Option Nat) (init : List XmlProp)
    (hinit : ∀ pr ∈ init, isLangProp pr = false) (attrs : List GAttr) :
    ∀ (added : Nat) (needs : Bool) (vOpt : Option (List Nat)) (s : ConvSt),
    s.oracle = [] → s.pd.maybe_xhtml = true → s.pd.sanitize_names = false →
    s.pd.lang_attribute = langBytes →
    (∀ n, getNode s node = some n → n.props = init ++ vOpt.toList.map langProp) →
    (∃ n, getNode s node = some n) →
    (added = 0 → vOpt = none) →
    (∀ a ∈ attrs, isAliasLang a = true ∨ isBareLang a = true) →
    (caLoop node xp false attrs added needs s).1.1 = true ∧
    (caLoop node xp false attrs added needs s).1.2.2.1 = needs ∧
    ∃ n', getNode (caLoop node xp false attrs added needs s).2 node = some n' ∧
      n'.props = init ++ ((langFold attrs added vOpt).2).toList.map langProp := by
  induction attrs with
  | nil =>
      intro added needs vOpt s ho hmx hsan hlang hprops ⟨n, hget⟩ hcouple _
      exact ⟨rfl, rfl, n, hget, hprops n hget⟩
  | cons h rest ih =>
      intro added needs vOpt s ho hmx hsan hlang hprops ⟨n, hget⟩ hcouple hattrs
      have hp : n.props = init ++ vOpt.toList.map langProp := hprops n hget
      have hrest : ∀ a ∈ rest, isAliasLang a = true ∨ isBareLang a = true :=
        fun a ha => hattrs a (List.mem_cons_of_mem h ha)
      unfold caLoop
      dsimp only
      simp only [Bool.false_and, Bool.false_eq_true, if_false]
      rcases hattrs h (List.mem_cons_self h rest) with halias | hbare
      · rcases (Bool.or_eq_true _ _).mp halias with hx | hl
        · -- xml-classified lang alias
          obtain ⟨hans, hnm⟩ := by
            simpa [isXmlAliasLang, Bool.and_eq_true, beq_iff_eq] using hx
          have hbf : isBareLang h = false := by
            simp [isBareLang, hans]
          rw [hans]
          dsimp only
          obtain ⟨k, he1, he2, he3, he4, he5, he6⟩ := ensure_xml_ns_nilOracle node s ho
          rcases hE : ensure_xml_ns (some node) s with ⟨nsx, s1⟩
          rw [hE] at he1 he2 he3 he4 he5 he6
          dsimp only at he1 he2 he3 he4 he5 he6
          subst he1
          dsimp only
          rw [hnm]
          rw [show (s1.pd.maybe_xhtml && (langBytes == langBytes)) = true from by
            rw [he4.trans hmx]; simp]
          rw [if_pos (rfl : (true : Bool) = true)]
          have hget1 : getNode s1 node = some n := by
            unfold getNode at hget ⊢
            rw [he2]
            exact hget
          by_cases had0 : added = 0
          · rw [if_pos (show (added == 0) = true from by simp [had0])]
            rw [he6.trans hlang]
            obtain ⟨hr1, hg1, ho1, hpd1⟩ :=
              xmlNewNsPropEatName_append node none langBytes h.aval s1 he3 n hget1
            rcases hN : xmlNewNsPropEatName node none langBytes h.aval s1 with ⟨r1, s2⟩
            rw [hN] at hr1 hg1 ho1 hpd1
            dsimp only at hr1 hg1 ho1 hpd1
            subst hr1
            dsimp only
            have hv : vOpt = none := hcouple had0
            obtain ⟨ihO, ihN, n', ihG, ihP⟩ := ih 1 needs (some h.aval) s2 ho1
              (by rw [hpd1]; exact he4.trans hmx)
              (by rw [hpd1]; exact he5.trans hsan)
              (by rw [hpd1]; exact he6.trans hlang)
              (by
                intro m hm
                rw [hg1] at hm
                cases hm
                dsimp only
                rw [hp, hv]
                simp [langProp])
              ⟨_, hg1⟩
              (fun habs => absurd habs (by decide))
              hrest
            refine ⟨ihO, ihN, n', ihG, ?_⟩
            rw [ihP]
            dsimp only [langFold]
            rw [langStep_alias_set hbf had0]
          · rw [if_neg (show ¬ (added == 0) = true from by simp [had0])]
            obtain ⟨ihO, ihN, n', ihG, ihP⟩ := ih added needs vOpt s1 he3
              (he4.trans hmx) (he5.trans hsan) (he6.trans hlang)
              (by
                intro m hm
                rw [hget1] at hm
                cases hm
                exact hp)
              ⟨n, hget1⟩ hcouple hrest
            refine ⟨ihO, ihN, n', ihG, ?_⟩
            rw [ihP]
            dsimp only [langFold]
            rw [langStep_alias_skip hbf had0]
        · -- literal xml:lang alias
          obtain ⟨hans, hsw⟩ := by
            simpa [isLitAliasLang, Bool.and_eq_true, beq_iff_eq] using hl
          have hbf : isBareLang h = false := by
            simp only [isBareLang, hans]
            cases hq : (h.aname == langBytes) with
            | false => simp
            | true =>
                rw [beq_iff_eq] at hq
                rw [hq] at hsw
                exact absurd hsw (by decide)
          rw [hans]
          dsimp only
          rw [hmx, hsw]
          rw [show (true && true) = true from rfl]
          rw [if_pos (rfl : (true : Bool) = true)]
          by_cases had0 : added = 0
          · rw [if_pos (show (added == 0) = true from by simp [had0])]
            rw [hlang]
            obtain ⟨hr1, hg1, ho1, hpd1⟩ :=
              xmlNewNsPropEatName_append node none langBytes h.aval s ho n hget
            rcases hN : xmlNewNsPropEatName node none langBytes h.aval s with ⟨r1, s2⟩
            rw [hN] at hr1 hg1 ho1 hpd1
            dsimp only at hr1 hg1 ho1 hpd1
            subst hr1
            dsimp only
            have hv : vOpt = none := hcouple had0
            obtain ⟨ihO, ihN, n', ihG, ihP⟩ := ih 1 needs (some h.aval) s2 ho1
              (by rw [hpd1]; exact hmx)
              (by rw [hpd1]; exact hsan)
              (by rw [hpd1]; exact hlang)
              (by
                intro m hm
                rw [hg1] at hm
                cases hm
                dsimp only
                rw [hp, hv]
                simp [langProp])
              ⟨_, hg1⟩
              (fun habs => absurd habs (by decide))
              hrest
            refine ⟨ihO, ihN, n', ihG, ?_⟩
            rw [ihP]
            dsimp only [langFold]
            rw [langStep_alias_set hbf had0]
          · rw [if_neg (show ¬ (added == 0) = true from by simp [had0])]
            obtain ⟨ihO, ihN, n', ihG, ihP⟩ := ih added needs vOpt s ho hmx hsan hlang
              hprops ⟨n, hget⟩ hcouple hrest
            refine ⟨ihO, ihN, n', ihG, ?_⟩
            rw [ihP]
            dsimp only [langFold]
            rw [langStep_alias_skip hbf had0]
      · -- bare lang attribute
        obtain ⟨hans, hnm⟩ := by
          simpa [isBareLang, Bool.and_eq_true, beq_iff_eq] using hbare
        have hbt : isBareLang h = true := hbare
        rw [hans]
        dsimp only
        rw [hnm]
        rw [show startsWithBytes (bytes "xml:lang") langBytes = false from rfl]
        simp only [Bool.and_false, Bool.false_eq_true, if_false]
        rw [show startsWithBytes xmlnsBytes langBytes = false from rfl]
        rw [if_neg (show ¬ (false : Bool) = true from fun hq => Bool.noConfusion hq)]
        obtain ⟨a1, n1, hout, hg1, hp1, ho1, hpd1⟩ :=
          caTail_bareLang node xp h added s ho hmx hsan hlang hnm n hget init vOpt hp hinit
        rw [hnm] at hout hg1 ho1 hpd1
        rcases hT : caTail node xp false h langBytes NameAlias.full none added s with ⟨out, s2⟩
        rw [hT] at hout hg1 ho1 hpd1
        dsimp only at hout hg1 ho1 hpd1
        subst hout
        dsimp only
        obtain ⟨ihO, ihN, n', ihG, ihP⟩ := ih (if added = 2 then added else 2) needs
          (if added = 2 then vOpt else some h.aval) s2 ho1
          (by rw [hpd1]; exact hmx)
          (by rw [hpd1]; exact hsan)
          (by rw [hpd1]; exact hlang)
          (by
            intro m hm
            rw [hg1] at hm
            cases hm
            exact hp1)
          ⟨n1, hg1⟩
          (by
            by_cases had2 : added = 2
            · rw [if_pos had2, had2]
              intro habs
              exact absurd habs (by decide)
            · rw [if_neg had2]
              intro habs
              exact absurd habs (by decide))
          hrest
        refine ⟨ihO, ihN, n', ihG, ?_⟩
        rw [ihP]
        dsimp only [langFold]
        by_cases had2 : added = 2
        · rw [langStep_bare_skip hbt had2, if_pos had2, if_pos had2]
        · rw [langStep_bare_set hbt had2, if_neg had2, if_neg had2]

/-- C7 (amended): for an element whose attributes are all lang-alias
producers (xml-classified `lang`, literal `xml:lang`, or a bare `lang`
attribute) under XHTML rules with sanitization off and no allocation
failures, at most one plain `lang` alias attribute ends up on the target
element; but the value kept is that of the first *bare* `lang` attribute
when one exists (the bare path uses `xmlSetNsProp`, which overwrites the
alias written earlier), and only otherwise that of the first
xml-classified or literal `xml:lang` producer. -/
theorem create_attributes_lang_once (node : Nat) (attrs : List GAttr)
    (xp : Option Nat) (s : ConvSt)
    (ho : s.oracle = []) (hmx : s.pd.maybe_xhtml = true)
    (hsan : s.pd.sanitize_names = false) (hlang : s.pd.lang_attribute = langBytes)
    (n : XmlNode) (hget : getNode s node = some n)
    (hinit : ∀ pr ∈ n.props, isLangProp pr = false)
    (hattrs : ∀ a ∈ attrs, isAliasLang a = true ∨ isBareLang a = true) :
    (create_attributes node attrs xp false s).1.1 = true ∧
    ∃ n', getNode (create_attributes node attrs xp false s).2 node = some n' ∧
      n'.props = n.props ++ (langAliasValue attrs).toList.map langProp ∧
      (n'.props.filter isLangProp).length ≤ 1 := by
  obtain ⟨hO, hN, n', hG, hP⟩ := caLoop_langOnly node xp n.props hinit attrs 0 false none s
    ho hmx hsan hlang
    (fun m hm => by
      rw [hget] at hm
      cases hm
      simp)
    ⟨n, hget⟩ (fun _ => rfl) hattrs
  have hval : (langFold attrs 0 none).2 = langAliasValue attrs := by
    rw [langFold_value attrs 0 none hattrs (fun _ => rfl)]
    unfold langAliasValue
    cases hfb : attrs.find? isBareLang with
    | some b =>
        dsimp only
        rw [if_neg (show ¬ (0:Nat) = 2 by decide)]
    | none =>
        dsimp only
        rw [if_pos rfl]
  rw [hval] at hP
  have hbound : (n'.props.filter isLangProp).length ≤ 1 := by
    rw [hP, List.filter_append]
    have h1 : n.props.filter isLangProp = [] := by
      rw [List.filter_eq_nil]
      intro a ha
      rw [hinit a ha]
      exact fun hq => Bool.noConfusion hq
    rw [h1, List.nil_append]
    cases hv : langAliasValue attrs with
    | none => simp
    | some v => simp [langProp, isLangProp, List.filter]
  unfold create_attributes
  dsimp only
  exact ⟨hO, n', hG, hP, hbound⟩

/-- C7 witness: an xml-classified `lang=\"a\"` followed by a bare
`lang=\"b\"` leaves exactly one alias, with value `\"b\"`. -/
theorem create_attributes_lang_once_witness :
    (create_attributes 0 [a7a, a7b] none false c7St).1.1 = true ∧
    ∃ n', getNode (create_attributes 0 [a7a, a7b] none false c7St).2 0 = some n' ∧
      n'.props = (mkXmlNode .xelem [104]).props
        ++ (langAliasValue [a7a, a7b]).toList.map langProp ∧
      (n'.props.filter isLangProp).length ≤ 1 :=
  create_attributes_lang_once 0 [a7a, a7b] none c7St rfl rfl rfl rfl
    (mkXmlNode .xelem [104]) rfl
    (fun pr hpr => absurd hpr (List.not_mem_nil pr))
    (by decide)

/-- C7 counterexample: in `out7` the first lang producer in classification
order is the xml-classified `lang=\"a\"`; the converted root's plain lang
alias nevertheless carries `\"b\"`, the value of the later bare `lang`
attribute — the bare path's `xmlSetNsProp` (as-libxml.c line 211)
overwrites the earlier writer, so "first writer wins" does not hold. -/
theorem convert_lang_alias_bare_overwrites :
    ((convert_gumbo_tree_to_libxml_tree out7 opts7 []).1.1.bind
        (fun d => d.nodes.get? 0)).map
        (fun n => (n.props.filter (fun pr => pr.pns == none)).map
          (fun pr => (pr.pname, pr.pval)))
      = some [(langBytes, bytes "b")] ∧
    a7a.aval = bytes "a" ∧ bytes "b" ≠ bytes "a" := ⟨rfl, rfl, by decide⟩

theorem strchrColon_go (p l : List Nat) : ¬ 58 ∈ p → ∀ i : Nat,
    List.findIdx? (fun c => c == 58) (p ++ 58 :: l) i = some (p.length + i) := by
  induction p with
  | nil =>
      intro _ i
      simp [List.findIdx?_cons]
  | cons x xs ih =>
      intro h58 i
      have hx : (x == 58) = false := by
        simp only [beq_eq_false_iff_ne]
        intro he
        exact h58 (by rw [he]; exact List.mem_cons_self 58 xs)
      have hxs : ¬ 58 ∈ xs := fun hm => h58 (List.mem_cons_of_mem x hm)
      simp only [List.cons_append, List.findIdx?_cons, hx, Bool.false_eq_true, if_false]
      rw [ih hxs (i + 1)]
      congr 1
      simp only [List.length_cons]
      omega

theorem strchrColon_append (p l : List Nat) (h58 : ¬ 58 ∈ p) :
    strchrColon (p ++ 58 :: l) = some p.length := by
  unfold strchrColon
  rw [strchrColon_go p l h58 0]
  rfl

theorem set_append_colon (p l : List Nat) :
    (p ++ 58 :: l).set p.length 95 = p ++ 95 :: l := by
  induction p with
  | nil => rfl
  | cons x xs ih => simp [List.set, ih]

theorem take_append_self (p l : List Nat) : (p ++ l).take p.length = p :=
  List.take_left p l

/-- C4 (amended): under the strict-XHTML rules (`maybe_xhtml`), an
attribute named `prefix:local` whose prefix resolves nowhere is deferred
on the first pass (the source attribute is marked for reprocessing) and
on the second pass emitted as a bare, non-namespaced attribute whose name
joins prefix and local with an underscore; the conversion does not fail.
In non-strict mode the prefix block is skipped entirely and the colon
name is emitted unchanged (see the counterexample). -/
theorem create_attributes_colon_merge (node : Nat) (xp : Option Nat)
    (p l v : List Nat) (s : ConvSt)
    (ho : s.oracle = []) (hmx : s.pd.maybe_xhtml = true)
    (hsan : s.pd.sanitize_names = false) (hlang : s.pd.lang_attribute = langBytes)
    (h58 : ¬ 58 ∈ p) (hl : l ≠ [])
    (hxl : startsWithBytes (bytes "xml:lang") (p ++ 58 :: l) = false)
    (hxm : startsWithBytes xmlnsBytes (p ++ 58 :: l) = false)
    (hfind : find_namespace_by_pfx node xp p s = (none, s))
    (n : XmlNode) (hget : getNode s node = some n) :
    create_attributes node [GAttr.mk ANS.anone (p ++ 58 :: l) v false] xp false s
      = ((true, [GAttr.mk ANS.anone (p ++ 58 :: l) v true], true), s) ∧
    (create_attributes node [GAttr.mk ANS.anone (p ++ 58 :: l) v true] xp true s).1.1
      = true ∧
    (create_attributes node [GAttr.mk ANS.anone (p ++ 58 :: l) v true] xp true s).1.2.1
      = [GAttr.mk ANS.anone (p ++ 95 :: l) v true] ∧
    getNode (create_attributes node
        [GAttr.mk ANS.anone (p ++ 58 :: l) v true] xp true s).2 node
      = some { n with props := n.props ++ [XmlProp.mk none (p ++ 95 :: l) v] } := by
  have hlen : p.length + 1 < (p ++ 58 :: l).length := by
    simp only [List.length_append, List.length_cons]
    have : 0 < l.length := List.length_pos.mpr hl
    omega
  have hne : ((p ++ 95 :: l) == langBytes) = false := by
    rw [beq_eq_false_iff_ne]
    intro he
    have h95 : (95:Nat) ∈ p ++ 95 :: l := by simp
    rw [he] at h95
    exact absurd h95 (by decide)
  refine ⟨?_, ?_⟩
  · -- pass 1: defer and mark
    unfold create_attributes caLoop
    dsimp only
    simp only [Bool.false_and, Bool.false_eq_true, if_false]
    rw [hmx, hxl]
    simp only [Bool.true_and, Bool.false_eq_true, if_false]
    rw [hxm]
    rw [if_neg (show ¬ (false : Bool) = true from fun hq => Bool.noConfusion hq)]
    unfold caTail
    rw [hmx, if_pos (rfl : (true : Bool) = true)]
    rw [strchrColon_append p l h58]
    dsimp only
    rw [if_pos hlen]
    rw [take_append_self p (58 :: l), hfind]
    dsimp only
    unfold caLoop
    rfl
  · -- pass 2: merge with underscore and emit
    unfold create_attributes caLoop
    dsimp only
    simp only [Bool.not_true, Bool.and_false, Bool.false_eq_true, if_false]
    rw [hmx, hxl]
    simp only [Bool.true_and, Bool.false_eq_true, if_false]
    rw [hxm]
    rw [if_neg (show ¬ (false : Bool) = true from fun hq => Bool.noConfusion hq)]
    unfold caTail
    rw [hmx, if_pos (rfl : (true : Bool) = true)]
    rw [strchrColon_append p l h58]
    dsimp only
    rw [if_pos hlen]
    rw [take_append_self p (58 :: l), hfind]
    dsimp only
    rw [if_pos (rfl : (true : Bool) = true)]
    rw [set_append_colon p l]
    unfold caTailEmit caEmit
    rw [hsan]
    rw [if_neg (show ¬ (false : Bool) = true from fun hq => Bool.noConfusion hq)]
    dsimp only
    rw [xmlDictLookup_nilOracle (p ++ 95 :: l) (p ++ 95 :: l).length s ho]
    dsimp only
    rw [List.take_length]
    rw [hmx, hlang, hne]
    simp only [Bool.true_and, Bool.false_eq_true, if_false]
    obtain ⟨hr1, hg1, ho1, hpd1⟩ :=
      xmlNewNsPropEatName_append node none (p ++ 95 :: l) v s ho n hget
    rcases hN : xmlNewNsPropEatName node none (p ++ 95 :: l) v s with ⟨r1, s2⟩
    rw [hN] at hr1 hg1 ho1 hpd1
    dsimp only at hr1 hg1 ho1 hpd1
    subst hr1
    dsimp only
    unfold caLoop
    exact ⟨rfl, rfl, hg1⟩

/-- C4 witness: `foo:bar=\"x\"` with `foo` unbound becomes `foo_bar`. -/
theorem create_attributes_colon_merge_witness :
    create_attributes 0 [GAttr.mk ANS.anone (bytes "foo" ++ 58 :: bytes "bar")
        (bytes "x") false] none false c4St
      = ((true, [GAttr.mk ANS.anone (bytes "foo" ++ 58 :: bytes "bar")
          (bytes "x") true], true), c4St) ∧
    (create_attributes 0 [GAttr.mk ANS.anone (bytes "foo" ++ 58 :: bytes "bar")
        (bytes "x") true] none true c4St).1.1 = true ∧
    (create_attributes 0 [GAttr.mk ANS.anone (bytes "foo" ++ 58 :: bytes "bar")
        (bytes "x") true] none true c4St).1.2.1
      = [GAttr.mk ANS.anone (bytes "foo" ++ 95 :: bytes "bar") (bytes "x") true] ∧
    getNode (create_attributes 0 [GAttr.mk ANS.anone (bytes "foo" ++ 58 :: bytes "bar")
        (bytes "x") true] none true c4St).2 0
      = some { mkXmlNode .xelem [104] with props := (mkXmlNode XKind.xelem [104]).props
          ++ [XmlProp.mk none (bytes "foo" ++ 95 :: bytes "bar") (bytes "x")] } :=
  create_attributes_colon_merge 0 none (bytes "foo") (bytes "bar") (bytes "x") c4St
    rfl rfl rfl rfl (by decide) (by decide) (by decide) (by decide) rfl
    (mkXmlNode .xelem [104]) rfl

/-- C4 counterexample: in non-strict mode (`use_xhtml_rules = false`) the
whole prefix-resolution block of create_attributes (as-libxml.c lines
180-199) is skipped, so `foo:bar=\"x\"` is emitted with its colon name
unchanged — not as `foo_bar`; the underscore merge the claim promises for
non-strict mode happens only under the XHTML rules. -/
theorem convert_nonstrict_keeps_colon_name :
    ((convert_gumbo_tree_to_libxml_tree out4 opts4 []).1.1.bind
        (fun d => d.nodes.get? 0)).map
        (fun n => n.props.map (fun pr => (pr.pns, pr.pname, pr.pval)))
      = some [(none, bytes "foo:bar", bytes "x")] ∧
    bytes "foo:bar" ≠ bytes "foo_bar" := ⟨rfl, by decide⟩

theorem ensure_xml_ns_mirror (i : Nat) (s : ConvSt) (ho : s.oracle = []) :
    ∃ k, (ensure_xml_ns (some i) s).1 = some k ∧
      (ensure_xml_ns (some i) s).2.pd.xml = some k ∧
      (ensure_xml_ns (some i) s).2.pd.root = s.pd.root ∧
      (ensure_xml_ns (some i) s).2.pd.lang_attribute = s.pd.lang_attribute ∧
      (ensure_xml_ns (some i) s).2.doc.nodes = s.doc.nodes ∧
      (ensure_xml_ns (some i) s).2.oracle = [] := by
  unfold ensure_xml_ns
  cases hx : s.pd.xml with
  | some k => exact ⟨k, rfl, hx, rfl, rfl, rfl, ho⟩
  | none =>
      dsimp only
      cases hr : s.pd.root with
      | some r =>
          dsimp only
          unfold xmlSearchNs
          dsimp only
          rw [if_pos (rfl : xmlBytes = xmlBytes)]
          cases hOld : s.doc.oldNs with
          | some k =>
              dsimp only
              exact ⟨k, rfl, rfl, hr, rfl, rfl, ho⟩
          | none =>
              dsimp only
              rw [allocOk_empty s ho]
              rw [if_pos (rfl : (true : Bool) = true)]
              dsimp only
              exact ⟨s.doc.nss.length, rfl, rfl, hr, rfl, rfl, ho⟩
      | none =>
          dsimp only
          unfold xmlSearchNs
          dsimp only
          rw [if_pos (rfl : xmlBytes = xmlBytes)]
          cases hOld : s.doc.oldNs with
          | some k =>
              dsimp only
              exact ⟨k, rfl, rfl, hr, rfl, rfl, ho⟩
          | none =>
              dsimp only
              rw [allocOk_empty s ho]
              rw [if_pos (rfl : (true : Bool) = true)]
              dsimp only
              exact ⟨s.doc.nss.length, rfl, rfl, hr, rfl, rfl, ho⟩

/-- C5 (amended): with no allocation failures, the strict-XHTML
post-pass mirrors the root's bare `lang` attribute into an `xml:lang`
attribute bound to the `xml` namespace (created on demand), keeping the
bare one; with no bare `lang` on the root it is the identity.  When an
allocation fails inside the mirror, the conversion still reports success
with only the bare `lang` (both `xmlGetNsProp` and the
`xmlNewNsPropEatName` at as-libxml.c line 478 are unchecked); see the
counterexample. -/
theorem mirrorRootLang_mirrors (s : ConvSt) (r : Nat) (n : XmlNode)
    (hmx : s.pd.maybe_xhtml = true) (hroot : s.pd.root = some r)
    (hget : getNode s r = some n) (ho : s.oracle = []) :
    (∀ pr, n.props.find? (fun q => q.pns == none && q.pname == s.pd.lang_attribute)
        = some pr →
      ∃ x n', getNode (mirrorRootLang s) r = some n' ∧
        n'.props = n.props ++ [XmlProp.mk (some x) s.pd.lang_attribute pr.pval]) ∧
    (n.props.find? (fun q => q.pns == none && q.pname == s.pd.lang_attribute) = none →
      mirrorRootLang s = s) := by
  constructor
  · intro pr hpr
    unfold mirrorRootLang
    rw [hmx, if_pos (rfl : (true : Bool) = true)]
    unfold xmlGetNsProp
    rw [hroot]
    dsimp only
    rw [hget]
    dsimp only
    rw [hpr]
    dsimp only
    rw [allocOk_empty s ho]
    rw [if_pos (rfl : (true : Bool) = true)]
    dsimp only
    obtain ⟨x, he1, he2, he3, he4, he5, he6⟩ := ensure_xml_ns_mirror r s ho
    rw [hroot]
    rcases hE : ensure_xml_ns (some r) s with ⟨xr, s2⟩
    rw [hE] at he1 he2 he3 he4 he5 he6
    dsimp only at he1 he2 he3 he4 he5 he6
    rw [he2]
    dsimp only
    rw [he3, hroot]
    dsimp only
    have hget2 : getNode s2 r = some n := by
      unfold getNode at hget ⊢
      rw [he5]
      exact hget
    obtain ⟨hr1, hg1, ho1, hpd1⟩ :=
      xmlNewNsPropEatName_append r (some x) s2.pd.lang_attribute pr.pval s2 he6 n hget2
    rcases hN : xmlNewNsPropEatName r (some x) s2.pd.lang_attribute pr.pval s2 with ⟨r1, s3⟩
    rw [hN] at hr1 hg1 ho1 hpd1
    dsimp only at hr1 hg1 ho1 hpd1
    refine ⟨x, _, hg1, ?_⟩
    rw [he4]
  · intro hnone
    unfold mirrorRootLang
    rw [hmx, if_pos (rfl : (true : Bool) = true)]
    unfold xmlGetNsProp
    rw [hroot]
    dsimp only
    rw [hget]
    dsimp only
    rw [hnone]

/-- C5 witness: a root with `lang=\"en\"` gains the mirrored
namespaced copy. -/
theorem mirrorRootLang_mirrors_witness :
    ∃ x n', getNode (mirrorRootLang c5St) 0 = some n' ∧
      n'.props = rootLangNode.props
        ++ [XmlProp.mk (some x) c5St.pd.lang_attribute
              (XmlProp.mk none langBytes (bytes "en")).pval] :=
  (mirrorRootLang_mirrors c5St 0 rootLangNode rfl rfl rfl rfl).1
    (XmlProp.mk none langBytes (bytes "en")) rfl

/-- C5 counterexample: failing the allocation consumed by the mirror step
(the 11th allocation of this conversion) yields a successful conversion
— document present, no error — whose root carries only the bare `lang`,
without the promised `xml:lang` mirror. -/
theorem convert_root_lang_mirror_dropped :
    (convert_gumbo_tree_to_libxml_tree out5 opts5
        (List.replicate 10 true ++ [false])).1.2 = none ∧
    ((convert_gumbo_tree_to_libxml_tree out5 opts5
        (List.replicate 10 true ++ [false])).1.1.bind
        (fun d => d.nodes.get? 0)).map
        (fun n => n.props.map (fun pr => (pr.pns, pr.pname, pr.pval)))
      = some [(none, langBytes, bytes "en")] := ⟨rfl, rfl⟩

/-- C1 (code bug): the seed `Stack_push(stack, root, NULL)` at
as-libxml.c line 437 is the one push whose result is discarded.  With a
zero-capacity stack and the push's growth allocation failing, the
conversion still "succeeds" — document returned, no error — but produces
zero target nodes for a source tree with one element, so the claimed
source-to-target correspondence fails on a successful conversion. -/
theorem convert_drops_tree_on_seed_push_failure :
    ((convert_gumbo_tree_to_libxml_tree out1 opts1 [true, false]).1.1.map
        (fun d => (d.nodes.length, d.rootElement, d.docChildren)))
      = some (0, none, []) ∧
    (convert_gumbo_tree_to_libxml_tree out1 opts1 [true, false]).1.2 = none ∧
    gElemCount t1 = 1 := ⟨rfl, rfl, rfl⟩

/-- C2 (code bug): when `alloc_doc` fails (as-libxml.c line 439) the
conversion ABORTs without ever writing `parse_data.errmsg` — ABORT only
sets `ok = false` — so the call returns no document *and* a NULL error
message: "a descriptive message string set at most once per call,
describing the first failure" is violated by the zero-message failure
(the same holds for the `lang` interning and several other OOM paths). -/
theorem convert_fails_without_message :
    (convert_gumbo_tree_to_libxml_tree out1 opts2 [true, false]).1 = (none, none) := rfl
